import Mathlib

/-!
Verification of the hierarchical parent-linking pipeline of
`streamLinkParent_adm3.mjs` (geojson-parent-linker).

The embedding follows the source file closely:
* property values are JSON-style values with JavaScript truthiness;
* the geometry library (turf `bbox`, `booleanWithin`, `booleanOverlap`,
  `booleanIntersects`) is an external collaborator and is modelled as
  function parameters of a context `Ctx`; a `none` result models a thrown
  GeometryError;
* the RBush spatial index is modelled by its observable behaviour: entries
  are the features whose bounding box was computable, and `search` returns
  the entries whose rectangle overlaps the query rectangle (return order is
  index-implementation-defined; insertion order is used here);
* the mutation of `childFeature.properties` is modelled by explicit state
  passing through the nested candidate/part loops, mirroring the exact
  `break`/`continue` structure of the source.
-/

namespace GeoLink

/-- JSON-style property value, as stored in a GeoJSON `properties` object. -/
inductive JVal where
  | jnull : JVal
  | jstr : String → JVal
  | jnum : Int → JVal
  | jbool : Bool → JVal
deriving DecidableEq

/-- JavaScript truthiness of a property value: `null`, `""`, `0` and
`false` are falsy. -/
def truthy : JVal → Bool
  | .jnull => false
  | .jstr s => !(s = "")
  | .jnum n => !(n = 0)
  | .jbool b => b

/-- Truthiness of a possibly absent property (an absent key reads as
`undefined`, which is falsy). -/
def truthyOpt : Option JVal → Bool
  | none => false
  | some v => truthy v

/-- Coordinates of a single polygon: a list of rings, each ring a list of
positions. The embedded code never inspects coordinates; only the external
geometry functions do. -/
abbrev Ring := List (Int × Int)

/-- Polygon coordinate block. -/
abbrev PolyCoords := List Ring

/-- GeoJSON geometry as far as the script distinguishes it: `Polygon`,
`MultiPolygon`, or anything else (which `getPolygons` maps to no parts). -/
inductive Geometry where
  | polygon (coordinates : PolyCoords)
  | multiPolygon (coordinates : List PolyCoords)
  | other
deriving DecidableEq

/-- The property keys the script reads or writes, plus the remaining input
keys (`extra`), which the output construction drops. A `none` field models
an absent key. -/
structure Props where
  shapeID : Option JVal := none
  shapeName : Option JVal := none
  parent_id : Option JVal := none
  parent_name : Option JVal := none
  state_name : Option JVal := none
  parent_state : Option JVal := none
  extra : List (String × JVal) := []
deriving DecidableEq

/-- A GeoJSON feature; `props = none` models a missing `properties` object
and `geom = none` a missing `geometry` object. -/
structure Feature where
  props : Option Props
  geom : Option Geometry
deriving DecidableEq

/-- A bounding box `[minX, minY, maxX, maxY]` as returned by turf `bbox`. -/
structure Box where
  minX : Int
  minY : Int
  maxX : Int
  maxY : Int
deriving DecidableEq

/-- The external collaborators and loaded datasets of one run: the turf
geometry functions (each may fail, modelled by `none`), the ADM1 feature
list (entries may be JSON `null`) and the ADM2 feature list. -/
structure Ctx where
  bboxG : Geometry → Option Box
  withinG : Geometry → Geometry → Option Bool
  overlapG : Geometry → Geometry → Option Bool
  intersectsG : Geometry → Geometry → Option Bool
  adm1Features : List (Option Feature)
  adm2Features : List Feature

/-- turf `bbox(feature)`: computed from the geometry; a missing geometry
throws (modelled as `none`). -/
def bboxF (ctx : Ctx) (f : Feature) : Option Box :=
  match f.geom with
  | none => none
  | some g => ctx.bboxG g

/-- Lift a geometry predicate to features, as turf boolean predicates read
the geometry of each argument; a missing geometry throws. -/
def predW (P : Geometry → Geometry → Option Bool) (a b : Feature) : Option Bool :=
  match a.geom, b.geom with
  | some ga, some gb => P ga gb
  | _, _ => none

/-- Part decomposition `getPolygons` of the source: a `Polygon` feature is
its own single part; a `MultiPolygon` is exploded into one `Polygon`
feature per coordinate block, sharing the properties object (an empty one
when missing); anything else has no parts. -/
def getPolygons (f : Feature) : List Feature :=
  match f.geom with
  | none => []
  | some (.polygon _) => [f]
  | some (.multiPolygon cs) =>
      cs.map (fun c => { props := some (f.props.getD {}), geom := some (.polygon c) })
  | some .other => []

/-- An entry of the ADM1 spatial index: the bounding box and the index of
the originating feature in `adm1Features`. -/
structure IndexEntry where
  box : Box
  idx : Nat
deriving DecidableEq

/-- The loaded ADM1 index entries: one per ADM1 feature whose `bbox` call
succeeded and whose `properties` access (for the stored `shapeName`) did
not throw; failing features are dropped, never inserted. -/
def adm1Entries (ctx : Ctx) : List IndexEntry :=
  (ctx.adm1Features.enum).filterMap (fun p =>
    match p.2 with
    | none => none
    | some f =>
      match bboxF ctx f, f.props with
      | some b, some _ => some { box := b, idx := p.1 }
      | _, _ => none)

/-- Rectangle overlap test of the RBush `search` query. -/
def boxOverlap (a b : Box) : Bool :=
  decide (a.minX ≤ b.maxX) && decide (a.maxX ≥ b.minX) &&
  decide (a.minY ≤ b.maxY) && decide (a.maxY ≥ b.minY)

/-- The rectangle query of the index, `adm1Tree.search(box)`: all entries
whose rectangle overlaps the query rectangle, in insertion order (the real
RBush order is implementation-defined). -/
def treeSearch (ctx : Ctx) (q : Box) : List IndexEntry :=
  (adm1Entries ctx).filter (fun e => boxOverlap q e.box)

/-- The full dump of the index, `adm1Tree.all()`: every loaded entry. -/
def treeAll (ctx : Ctx) : List IndexEntry :=
  adm1Entries ctx

/-- Word characters of the JavaScript regex class `\w`, namely
`[A-Za-z0-9_]`, stated on character codes. -/
def isWordChar (c : Char) : Bool :=
  (97 ≤ c.toNat && c.toNat ≤ 122) || (65 ≤ c.toNat && c.toNat ≤ 90) ||
  (48 ≤ c.toNat && c.toNat ≤ 57) || c.toNat = 95

/-- JavaScript `toLowerCase` restricted to the Basic-Latin range: codes
65..90 shift by 32, everything else in the modelled ASCII domain is kept. -/
def jsLowerChar (c : Char) : Char :=
  if 65 ≤ c.toNat && c.toNat ≤ 90 then Char.ofNat (c.toNat + 32) else c

/-- The key normalizer of the source — lowercase, then compatibility
Unicode normalization, then stripping of every non-word character — on the
ASCII domain, where the NFKD normalization step is the identity. -/
def normKey (s : String) : String :=
  String.mk ((s.data.map jsLowerChar).filter isWordChar)

/-- The grouping key of an ADM2 feature: present exactly when
`feature.properties && feature.properties.parent_name` is truthy, in which
case it is the normalized `parent_name`. Only string labels are modelled:
a truthy non-string label would make the real script throw in
`toLowerCase` and abort the run, which is outside the modelled runs. -/
def adm2GroupKey (f : Feature) : Option String :=
  match f.props with
  | none => none
  | some p =>
    match p.parent_name with
    | some (JVal.jstr s) => if s = "" then none else some (normKey s)
    | _ => none

/-- Group lookup `adm2ByState.get(key) || []`: the Map of arrays is built
by pushing in iteration order, so the group of a key is the in-order
sublist of ADM2 features carrying that key, paired with their indices. -/
def adm2Group (ctx : Ctx) (key : String) : List (Nat × Feature) :=
  (ctx.adm2Features.enum).filter (fun p => adm2GroupKey p.2 == some key)

/-- Level-1 pair test `booleanWithin(c, a) || booleanIntersects(c, a)`
inside one `try`: a thrown error anywhere aborts the whole pair
(`none`). -/
def pairEval1 (ctx : Ctx) (pc pa : Feature) : Option Bool :=
  match predW ctx.withinG pc pa with
  | some true => some true
  | none => none
  | some false =>
    match predW ctx.intersectsG pc pa with
    | some true => some true
    | none => none
    | some false => some false

/-- Level-2 pair test
`booleanWithin(c, a) || booleanOverlap(c, a) || booleanIntersects(c, a)`
inside one `try`. -/
def pairEval2 (ctx : Ctx) (pc pa : Feature) : Option Bool :=
  match predW ctx.withinG pc pa with
  | some true => some true
  | none => none
  | some false =>
    match predW ctx.overlapG pc pa with
    | some true => some true
    | none => none
    | some false =>
      match predW ctx.intersectsG pc pa with
      | some true => some true
      | none => none
      | some false => some false

/-- State of the level-1 candidate scan: the `matchedState` variable
(initially JS `null`) and the child `properties` object being mutated. -/
structure L1State where
  ms : JVal
  ps : Props
deriving DecidableEq

/-- The shapeName a level-1 match stores: `adm1Feature.properties.shapeName`,
absent keys reading as `undefined` (collapsed with `null`). -/
def shapeNameVal (f : Feature) : JVal :=
  match f.props with
  | some p => p.shapeName.getD JVal.jnull
  | none => JVal.jnull

/-- Innermost level-1 loop over the candidate parts (`polyAdm1`), for a
fixed child part: a truthy pair sets `matchedState` and
`properties.parent_state` and leaves the loop; an error skips the pair; a
false pair reaches the trailing `if (matchedState) break`. -/
def jLoop1 (ctx : Ctx) (cf pc : Feature) (candParts : List Feature) (st : L1State) : L1State :=
  match candParts with
  | [] => st
  | pa :: rest =>
    match pairEval1 ctx pc pa with
    | some true =>
      let m := shapeNameVal cf
      { ms := m, ps := { st.ps with parent_state := some m } }
    | some false => if truthy st.ms then st else jLoop1 ctx cf pc rest st
    | none => jLoop1 ctx cf pc rest st

/-- Middle level-1 loop over the child parts (`polyChild`). -/
def iLoop1 (ctx : Ctx) (cf : Feature) (childParts candParts : List Feature) (st : L1State) : L1State :=
  match childParts with
  | [] => st
  | pc :: rest =>
    let st' := jLoop1 ctx cf pc candParts st
    if truthy st'.ms then st' else iLoop1 ctx cf rest candParts st'

/-- Outer level-1 loop over the index candidates; a candidate whose
underlying feature is missing or has no `properties` is skipped; the loop
stops as soon as `matchedState` is truthy. -/
def candLoop1 (ctx : Ctx) (childParts : List Feature) (cands : List IndexEntry) (st : L1State) : L1State :=
  match cands with
  | [] => st
  | e :: rest =>
    match ctx.adm1Features.getD e.idx none with
    | none => candLoop1 ctx childParts rest st
    | some cf =>
      match cf.props with
      | none => candLoop1 ctx childParts rest st
      | some _ =>
        let st' := iLoop1 ctx cf childParts (getPolygons cf) st
        if truthy st'.ms then st' else candLoop1 ctx childParts rest st'

/-- JavaScript `v || null` on a possibly absent property value. -/
def coerceNull (o : Option JVal) : JVal :=
  match o with
  | some v => if truthy v then v else JVal.jnull
  | none => JVal.jnull

/-- State of the level-2 candidate scan: the child `properties`, the
`foundParent` flag, and a trace of the ADM2 candidate index of every
(child-part, candidate-part) pair whose predicate chain was started. -/
structure L2State where
  ps : Props
  found : Bool
  trace : List Nat
deriving DecidableEq

/-- Innermost level-2 loop over the candidate parts: a truthy pair assigns
`parent_id` and `parent_name` from the candidate (with `|| null`) when
`foundParent` is not yet set, then breaks; an error continues with the
next pair; a false pair reaches the `if (foundParent) break` check. Every
started pair is recorded in the trace. -/
def jLoop2 (ctx : Ctx) (cIdx : Nat) (cf pc : Feature) (candParts : List Feature) (st : L2State) : L2State :=
  match candParts with
  | [] => st
  | pa :: rest =>
    let st0 : L2State := { st with trace := st.trace ++ [cIdx] }
    match pairEval2 ctx pc pa with
    | some true =>
      if st0.found then st0
      else
        let p := cf.props.getD {}
        { st0 with
          ps := { st0.ps with
                  parent_id := some (coerceNull p.shapeID),
                  parent_name := some (coerceNull p.shapeName) },
          found := true }
    | some false => if st0.found then st0 else jLoop2 ctx cIdx cf pc rest st0
    | none => jLoop2 ctx cIdx cf pc rest st0

/-- Middle level-2 loop over the child parts. -/
def iLoop2 (ctx : Ctx) (cIdx : Nat) (cf : Feature) (childParts candParts : List Feature) (st : L2State) : L2State :=
  match childParts with
  | [] => st
  | pc :: rest =>
    let st' := jLoop2 ctx cIdx cf pc candParts st
    if st'.found then st' else iLoop2 ctx cIdx cf rest candParts st'

/-- Outer level-2 loop over the group of the matched state, in stored
order; a candidate without `properties` is skipped; the loop stops as soon
as `foundParent` is set. -/
def candLoop2 (ctx : Ctx) (childParts : List Feature) (cands : List (Nat × Feature)) (st : L2State) : L2State :=
  match cands with
  | [] => st
  | (i, cf) :: rest =>
    match cf.props with
    | none => candLoop2 ctx childParts rest st
    | some _ =>
      let st' := iLoop2 ctx i cf childParts (getPolygons cf) st
      if st'.found then st' else candLoop2 ctx childParts rest st'

/-- Result of `processFeature`: the child `properties` after the in-place
mutations, the final `matchedState`, the `foundParent` flag, the number of
`adm2ByState` lookups performed, and the level-2 evaluation trace. -/
structure ProcResult where
  props : Option Props
  ms : JVal
  found : Bool
  lookups : Nat
  l2trace : List Nat
deriving DecidableEq

/-- Result of an early `return` of `processFeature`: the child is left
untouched and no matching state exists. -/
def noResult (f : Feature) : ProcResult :=
  { props := f.props, ms := JVal.jnull, found := false, lookups := 0, l2trace := [] }

/-- The resolver `processFeature(childFeature, index)` of the source. Early returns:
missing `properties` or `geometry`; a failed `bbox` call (note that on
success `box` is an array, hence truthy, so the `adm1Tree.all()` branch of
the candidate query can never be taken); an empty part list. Then the
level-1 scan over `adm1Tree.search(box)`, and, when `matchedState` is
truthy, the level-2 scan over the state group followed by the level-1-only
fallback. A truthy non-string `matchedState` would make the real script
throw in `toLowerCase`; such runs are outside the model and mapped to the
pre-lookup state. -/
def processFeature (ctx : Ctx) (f : Feature) : ProcResult :=
  match f.props, f.geom with
  | none, _ => noResult f
  | some _, none => noResult f
  | some p0, some _ =>
    match bboxF ctx f with
    | none => noResult f
    | some box =>
      let childPolygons := getPolygons f
      if childPolygons.length = 0 then noResult f
      else
        let cands := treeSearch ctx box
        let st1 := candLoop1 ctx childPolygons cands { ms := JVal.jnull, ps := p0 }
        if truthy st1.ms then
          match st1.ms with
          | JVal.jstr s =>
            let group := adm2Group ctx (normKey s)
            let st2 := candLoop2 ctx childPolygons group { ps := st1.ps, found := false, trace := [] }
            if st2.found then
              { props := some st2.ps, ms := st1.ms, found := true, lookups := 1, l2trace := st2.trace }
            else
              let psF := { st2.ps with parent_name := some st1.ms, state_name := some st1.ms }
              { props := some psF, ms := st1.ms, found := false, lookups := 1, l2trace := st2.trace }
          | _ =>
            { props := some st1.ps, ms := st1.ms, found := false, lookups := 0, l2trace := [] }
        else
          { props := some st1.ps, ms := st1.ms, found := false, lookups := 0, l2trace := [] }

/-- Structural validity test of the streaming loop:
`!feature || !feature.properties || !feature.geometry` skips the record. -/
def structValid : Option Feature → Bool
  | none => false
  | some f => f.props.isSome && f.geom.isSome

/-- The fixed property object of an output record, as built by the object
literal of the streaming loop: exactly six keys, each `|| null`. -/
def outputProps (p : Props) : List (String × JVal) :=
  [("shapeID", coerceNull p.shapeID),
   ("shapeName", coerceNull p.shapeName),
   ("parent_id", coerceNull p.parent_id),
   ("parent_name", coerceNull p.parent_name),
   ("state_name", coerceNull p.state_name),
   ("parent_state", coerceNull p.parent_state)]

/-- One serialized output record: its properties, its own bounding box
(`null` on failure), its geometry, and whether its separator carries a
comma (`isLast` compares the global index with `totalFeatures - 1`). -/
structure OutRecord where
  oprops : List (String × JVal)
  obox : Option Box
  ogeom : Option Geometry
  comma : Bool
deriving DecidableEq

/-- Emission of one structurally valid feature at global index `g` of `n`:
`processFeature` runs first (mutating the properties), then the record is
written unconditionally. -/
def emitOne (ctx : Ctx) (n g : Nat) (f : Feature) : OutRecord :=
  { oprops := outputProps ((processFeature ctx f).props.getD {}),
    obox := bboxF ctx f,
    ogeom := f.geom,
    comma := !(g = n - 1) }

/-- The chunked `forEach` over the ADM3 features, with
`globalIndex = i + chunkIndex` running over `0..n-1` in order (the
chunking by 1000 does not change the visiting order): invalid features are
skipped, valid ones produce exactly one record. -/
def runAux (ctx : Ctx) (n g : Nat) (rest : List (Option Feature)) : List OutRecord :=
  match rest with
  | [] => []
  | of :: tl =>
    match of with
    | none => runAux ctx n (g + 1) tl
    | some f =>
      if f.props.isSome && f.geom.isSome then
        emitOne ctx n g f :: runAux ctx n (g + 1) tl
      else
        runAux ctx n (g + 1) tl

/-- The full streaming loop over an input collection. -/
def runPipeline (ctx : Ctx) (children : List (Option Feature)) : List OutRecord :=
  runAux ctx children.length 0 children

/-- Comma-correctness of the emitted separator flags: the document between
the brackets parses as a JSON array exactly when every record except the
last carries a comma separator and the last does not. -/
def commaCorrect : List Bool → Bool
  | [] => true
  | [b] => !b
  | b :: c :: tl => b && commaCorrect (c :: tl)

/-- A level-2 candidate matches when it has a `properties` object and some
(child-part, candidate-part) pair evaluates to a truthy predicate result. -/
def candMatches2 (ctx : Ctx) (childParts : List Feature) (cf : Feature) : Bool :=
  cf.props.isSome &&
  childParts.any (fun pc => (getPolygons cf).any (fun pa => pairEval2 ctx pc pa == some true))

/-- The first matching candidate of a level-2 group, in stored order. -/
def firstMatch2 (ctx : Ctx) (childParts : List Feature) (group : List (Nat × Feature)) : Option (Nat × Feature) :=
  group.find? (fun p => candMatches2 ctx childParts p.2)

/-- The `parent_id`/`parent_name` assignment a level-2 winner performs. -/
def assignProps (p : Props) (cf : Feature) : Props :=
  { p with
    parent_id := some (coerceNull ((cf.props.getD {}).shapeID)),
    parent_name := some (coerceNull ((cf.props.getD {}).shapeName)) }

end GeoLink

namespace GeoLink

/-! Concrete run data used by witnesses and counterexamples. -/

/-- Geometry of the single state polygon of the concrete runs. -/
def gState : Geometry := .polygon [[(0, 0), (10, 0), (10, 10), (0, 10)]]

/-- Geometry of the first district polygon. -/
def gD0 : Geometry := .polygon [[(0, 0), (5, 0), (5, 5), (0, 5)]]

/-- Geometry of the second district polygon. -/
def gD1 : Geometry := .polygon [[(5, 5), (10, 5), (10, 10), (5, 10)]]

/-- Geometry of the child polygon. -/
def gChild : Geometry := .polygon [[(1, 1), (2, 1), (2, 2), (1, 2)]]

/-- Geometry whose bounding box computation fails in the degenerate-bbox
run. -/
def gBad : Geometry := .polygon []

/-- One bounding box covering all concrete geometries. -/
def boxAll : Box := { minX := 0, minY := 0, maxX := 10, maxY := 10 }

/-- The ADM1 state feature of the concrete runs. -/
def fState : Feature :=
  { props := some { shapeID := some (JVal.jstr "S1"), shapeName := some (JVal.jstr "StateA") },
    geom := some gState }

/-- The first ADM2 district feature, child of StateA. -/
def fD0 : Feature :=
  { props := some { shapeID := some (JVal.jstr "D0"), shapeName := some (JVal.jstr "DistX"),
                    parent_name := some (JVal.jstr "StateA") },
    geom := some gD0 }

/-- The second ADM2 district feature, child of StateA. -/
def fD1 : Feature :=
  { props := some { shapeID := some (JVal.jstr "D1"), shapeName := some (JVal.jstr "DistY"),
                    parent_name := some (JVal.jstr "StateA") },
    geom := some gD1 }

/-- The ADM3 child feature of the concrete runs. -/
def fChild : Feature :=
  { props := some { shapeID := some (JVal.jstr "C0"), shapeName := some (JVal.jstr "ChildP") },
    geom := some gChild }

/-- A structurally invalid feature: no properties and no geometry. -/
def fBadShape : Feature := { props := none, geom := none }

/-- A child whose geometry makes the bbox call fail. -/
def fChildBad : Feature :=
  { props := some { shapeID := some (JVal.jstr "C1"), shapeName := some (JVal.jstr "ChildQ") },
    geom := some gBad }

/-- Concrete context in which every predicate pair matches: one state, two
districts of that state. -/
def ctxMatch : Ctx :=
  { bboxG := fun _ => some boxAll,
    withinG := fun _ _ => some true,
    overlapG := fun _ _ => some false,
    intersectsG := fun _ _ => some false,
    adm1Features := [some fState],
    adm2Features := [fD0, fD1] }

/-- Concrete context in which no predicate pair ever matches. -/
def ctxNoMatch : Ctx :=
  { bboxG := fun _ => some boxAll,
    withinG := fun _ _ => some false,
    overlapG := fun _ _ => some false,
    intersectsG := fun _ _ => some false,
    adm1Features := [some fState],
    adm2Features := [fD0, fD1] }

/-- Concrete context in which the bbox of the degenerate child geometry is
uncomputable while the state matches every pair. -/
def ctxBadBox : Ctx :=
  { bboxG := fun g => if g = gBad then none else some boxAll,
    withinG := fun _ _ => some true,
    overlapG := fun _ _ => some false,
    intersectsG := fun _ _ => some false,
    adm1Features := [some fState],
    adm2Features := [fD0, fD1] }

/-- Concrete context in which the state matches but neither district
does. -/
def ctxL1Only : Ctx :=
  { bboxG := fun _ => some boxAll,
    withinG := fun ga gb => if ga = gChild && gb = gState then some true else some false,
    overlapG := fun _ _ => some false,
    intersectsG := fun _ _ => some false,
    adm1Features := [some fState],
    adm2Features := [fD0, fD1] }

end GeoLink

namespace GeoLink

/-! Helper notions used by the statements. -/

/-- Update of the `parent_state` field only. -/
def setPS (p : Props) (v : Option JVal) : Props :=
  { p with parent_state := v }

/-- A loaded ADM1 feature whose `shapeName`, when present, is `null` or a
string — the typing the boundary datasets satisfy; a truthy non-string
`shapeName` would later crash the script in `toLowerCase`. -/
def shapeNameOk : Option Feature → Bool
  | none => true
  | some f =>
    match f.props with
    | none => true
    | some p =>
      match p.shapeName with
      | none => true
      | some JVal.jnull => true
      | some (JVal.jstr _) => true
      | some _ => false

/-- Test whether a property value is a string. -/
def isStrB : JVal → Bool
  | .jstr _ => true
  | _ => false

/-- The level-2 group members up to and including the first matching one
(the whole group when none matches): the only candidates the scan may
touch. -/
def upTo2 (ctx : Ctx) (childParts : List Feature) (group : List (Nat × Feature)) : List (Nat × Feature) :=
  group.takeWhile (fun p => !(candMatches2 ctx childParts p.2)) ++
    (firstMatch2 ctx childParts group).toList

/-- A district with a falsy (empty-string) `shapeID`, child of StateA. -/
def fDEmpty : Feature :=
  { props := some { shapeID := some (JVal.jstr ""), shapeName := some (JVal.jstr "DistZ"),
                    parent_name := some (JVal.jstr "StateA") },
    geom := some gD0 }

/-- Concrete context whose single ADM2 candidate has an empty `shapeID`. -/
def ctxEmptyID : Ctx :=
  { bboxG := fun _ => some boxAll,
    withinG := fun _ _ => some true,
    overlapG := fun _ _ => some false,
    intersectsG := fun _ _ => some false,
    adm1Features := [some fState],
    adm2Features := [fDEmpty] }

/-- Concrete context whose geometry predicates all throw. -/
def ctxErr : Ctx :=
  { bboxG := fun _ => some boxAll,
    withinG := fun _ _ => none,
    overlapG := fun _ _ => none,
    intersectsG := fun _ _ => none,
    adm1Features := [some fState],
    adm2Features := [fD0, fD1] }

end GeoLink

namespace GeoLink

/-! Lemmas about the key normalizer. -/

theorem char_toNat_ofNat_valid (n : Nat) (h : n < 55296) : (Char.ofNat n).toNat = n := by
  have hv : n.isValidChar := Or.inl h
  simp [Char.ofNat, hv, Char.ofNatAux, Char.toNat, UInt32.toNat, BitVec.toNat_ofNatLt]

theorem jsLowerChar_fix (c : Char) : jsLowerChar (jsLowerChar c) = jsLowerChar c := by
  unfold jsLowerChar
  by_cases h : 65 ≤ c.toNat ∧ c.toNat ≤ 90
  · have hb : (65 ≤ c.toNat && c.toNat ≤ 90) = true := by
      simp [h.1, h.2]
    rw [if_pos hb]
    have ht : (Char.ofNat (c.toNat + 32)).toNat = c.toNat + 32 :=
      char_toNat_ofNat_valid _ (by omega)
    have hn : ¬ (65 ≤ (Char.ofNat (c.toNat + 32)).toNat ∧ (Char.ofNat (c.toNat + 32)).toNat ≤ 90) := by
      rw [ht]; omega
    rw [if_neg (by simpa using hn)]
  · have hb : ¬ ((65 ≤ c.toNat && c.toNat ≤ 90) = true) := by
      simpa using h
    rw [if_neg hb, if_neg hb]

theorem normKey_idem (s : String) : normKey (normKey s) = normKey s := by
  unfold normKey
  have hdata : (String.mk ((s.data.map jsLowerChar).filter isWordChar)).data
      = (s.data.map jsLowerChar).filter isWordChar := rfl
  rw [hdata]
  have hmap : ((s.data.map jsLowerChar).filter isWordChar).map jsLowerChar
      = (s.data.map jsLowerChar).filter isWordChar := by
    have hfix : ∀ c ∈ (s.data.map jsLowerChar).filter isWordChar, jsLowerChar c = c := by
      intro c hc
      have hc' : c ∈ s.data.map jsLowerChar := (List.mem_filter.mp hc).1
      rcases List.mem_map.mp hc' with ⟨c0, _, rfl⟩
      exact jsLowerChar_fix c0
    calc ((s.data.map jsLowerChar).filter isWordChar).map jsLowerChar
        = ((s.data.map jsLowerChar).filter isWordChar).map id :=
          List.map_congr_left hfix
      _ = (s.data.map jsLowerChar).filter isWordChar := List.map_id _
  rw [hmap]
  have hfil : ((s.data.map jsLowerChar).filter isWordChar).filter isWordChar
      = (s.data.map jsLowerChar).filter isWordChar := by
    apply List.filter_eq_self.mpr
    intro a ha
    exact (List.mem_filter.mp ha).2
  rw [hfil]

/-! Cardinality of the emitted records. -/

theorem runAux_length (ctx : Ctx) (rest : List (Option Feature)) :
    ∀ n g, (runAux ctx n g rest).length = (rest.filter structValid).length := by
  induction rest with
  | nil => intro n g; rfl
  | cons of tl ih =>
    intro n g
    match of with
    | none => simpa [runAux, structValid] using ih n (g + 1)
    | some f =>
      by_cases h : (f.props.isSome && f.geom.isSome) = true
      · simpa [runAux, h, structValid] using ih n (g + 1)
      · simp only [runAux, structValid]
        rw [if_neg h]
        simpa [structValid, h] using ih n (g + 1)

/-! Comma-correctness of the streamed output. -/

theorem commaCorrect_cons_true (l : List Bool) (h : l ≠ []) :
    commaCorrect (true :: l) = commaCorrect l := by
  match l with
  | [] => exact absurd rfl h
  | b :: tl => rfl

theorem runAux_ne_nil (ctx : Ctx) (rest : List (Option Feature)) :
    ∀ n g, (∃ of ∈ rest, structValid of = true) → runAux ctx n g rest ≠ [] := by
  induction rest with
  | nil =>
    intro n g h
    rcases h with ⟨of, hmem, _⟩
    exact absurd hmem (List.not_mem_nil of)
  | cons of tl ih =>
    intro n g h
    match of with
    | none =>
      rcases h with ⟨o, hmem, hv⟩
      rcases List.mem_cons.mp hmem with rfl | hmem'
      · exact absurd hv (by simp [structValid])
      · exact (by simpa [runAux] using ih n (g + 1) ⟨o, hmem', hv⟩)
    | some f =>
      by_cases hs : (f.props.isSome && f.geom.isSome) = true
      · simp [runAux, hs]
      · rcases h with ⟨o, hmem, hv⟩
        rcases List.mem_cons.mp hmem with rfl | hmem'
        · exact absurd hv (by simp [structValid, hs])
        · simp only [runAux]
          rw [if_neg hs]
          exact ih n (g + 1) ⟨o, hmem', hv⟩

theorem runAux_comma (ctx : Ctx) (rest : List (Option Feature)) :
    ∀ n g, g + rest.length = n →
    ((∀ of ∈ rest, structValid of = false) ∨
      (∃ l, rest.getLast? = some l ∧ structValid l = true)) →
    commaCorrect ((runAux ctx n g rest).map (fun r => r.comma)) = true := by
  induction rest with
  | nil => intro n g _ _; rfl
  | cons of tl ih =>
    intro n g hlen hdisj
    by_cases hv : structValid of = true
    · -- the head feature is valid: it emits a record
      match of, hv with
      | some f, hv =>
        have hs : (f.props.isSome && f.geom.isSome) = true := by
          simpa [structValid] using hv
        have hstep : runAux ctx n g (some f :: tl)
            = emitOne ctx n g f :: runAux ctx n (g + 1) tl := by
          simp [runAux, hs]
        rw [hstep]
        match tl, hlen, hdisj with
        | [], hlen, _ =>
          have hg : g = n - 1 := by
            simp only [List.length_cons, List.length_nil] at hlen
            omega
          simp [runAux, emitOne, commaCorrect, hg]
        | t :: ts, hlen, hdisj =>
          have hlast : (some f :: t :: ts).getLast? = (t :: ts).getLast? :=
            List.getLast?_cons_cons
          have hdisj' : (∀ o ∈ t :: ts, structValid o = false) ∨
              (∃ l, (t :: ts).getLast? = some l ∧ structValid l = true) := by
            rcases hdisj with hall | ⟨l, hl, hlv⟩
            · exact absurd (hall (some f) (List.mem_cons_self _ _)) (by simp [hv])
            · exact Or.inr ⟨l, by rw [← hlast]; exact hl, hlv⟩
          have hne : runAux ctx n (g + 1) (t :: ts) ≠ [] := by
            rcases hdisj' with hall | ⟨l, hl, hlv⟩
            · rcases hdisj with hall2 | ⟨l, hl, hlv⟩
              · exact absurd (hall2 (some f) (List.mem_cons_self _ _)) (by simp [hv])
              · rw [hlast] at hl
                exact runAux_ne_nil ctx (t :: ts) n (g + 1)
                  ⟨l, List.mem_of_getLast?_eq_some hl, hlv⟩
            · exact runAux_ne_nil ctx (t :: ts) n (g + 1)
                ⟨l, List.mem_of_getLast?_eq_some hl, hlv⟩
          have hmapne : (runAux ctx n (g + 1) (t :: ts)).map (fun r => r.comma) ≠ [] := by
            simpa using hne
          have hcomma : (emitOne ctx n g f).comma = true := by
            have : ¬ (g = n - 1) := by
              simp only [List.length_cons] at hlen
              omega
            simp [emitOne, this]
          rw [List.map_cons, hcomma,
            commaCorrect_cons_true _ hmapne]
          exact ih n (g + 1) (by simp only [List.length_cons] at hlen ⊢; omega) hdisj'
    · -- the head feature is invalid: it is skipped
      have hvf : structValid of = false := by
        cases h' : structValid of
        · rfl
        · exact absurd h' hv
      have hstep : runAux ctx n g (of :: tl) = runAux ctx n (g + 1) tl := by
        match of, hvf with
        | none, _ => simp [runAux]
        | some f, hvf =>
          have hs : ¬ ((f.props.isSome && f.geom.isSome) = true) := by
            simpa [structValid] using hvf
          simp only [runAux]
          rw [if_neg hs]
      rw [hstep]
      apply ih n (g + 1) (by simp only [List.length_cons] at hlen; omega)
      rcases hdisj with hall | ⟨l, hl, hlv⟩
      · exact Or.inl (fun o ho => hall o (List.mem_cons_of_mem _ ho))
      · match tl with
        | [] =>
          have hof : of = l := by simpa using hl
          rw [← hof] at hlv
          exact absurd hlv (by simp [hvf])
        | t :: ts =>
          refine Or.inr ⟨l, ?_, hlv⟩
          rw [← List.getLast?_cons_cons (a := of)]
          exact hl

end GeoLink

namespace GeoLink

/-- C4 counterexample: the first two labels normalize to `madhyapradesh`,
but `madhya_pradesh` keeps its underscore (`_` is a `\w` character and is
not stripped), so the three labels do not share one key. -/
theorem claim_C4_counterexample :
    normKey "Madhya Pradesh" = "madhyapradesh" ∧
    normKey "MADHYA-PRADESH" = "madhyapradesh" ∧
    normKey "madhya_pradesh" = "madhya_pradesh" ∧
    ¬ (normKey "madhya_pradesh" = normKey "Madhya Pradesh") :=
  ⟨by decide, by decide, by decide, by decide⟩

/-- C4 (amended): on the modelled ASCII domain the key normalizer is
idempotent, and `Madhya Pradesh` and `MADHYA-PRADESH` normalize to the same
key, but `madhya_pradesh` normalizes to a different key because the
underscore is preserved. -/
theorem claim_C4_amended :
    (∀ s : String, normKey (normKey s) = normKey s) ∧
    normKey "Madhya Pradesh" = normKey "MADHYA-PRADESH" ∧
    normKey "madhya_pradesh" ≠ normKey "Madhya Pradesh" :=
  ⟨normKey_idem, by decide, by decide⟩

/-- C2: the streaming loop appends exactly one record per structurally
valid input feature — whatever the context does (bbox failures, empty part
lists, absent matches included) — and none for an input lacking
`properties` or `geometry`. -/
theorem claim_C2_theorem (ctx : Ctx) (children : List (Option Feature)) :
    (runPipeline ctx children).length = (children.filter structValid).length :=
  runAux_length ctx children children.length 0

/-- C3 counterexample: a collection whose last feature is structurally
invalid while an earlier one is valid yields a single record whose
separator still carries a comma, so the closing bracket follows a trailing
comma and the accumulated text is not a parseable JSON document. -/
theorem claim_C3_counterexample :
    (runPipeline ctxMatch [some fChild, some fBadShape]).map (fun r => r.comma) = [true] ∧
    commaCorrect ((runPipeline ctxMatch [some fChild, some fBadShape]).map (fun r => r.comma)) = false :=
  ⟨by decide, by decide⟩

/-- C3 (amended): the emitted separator sequence is comma-correct — and
hence the accumulated text parses after the final append — exactly under
the proviso that the final input feature is structurally valid, or no
feature of the collection is; a structurally invalid final feature after a
valid one leaves a trailing comma. -/
theorem claim_C3_amended (ctx : Ctx) (children : List (Option Feature))
    (h : (∀ of ∈ children, structValid of = false) ∨
      (∃ l, children.getLast? = some l ∧ structValid l = true)) :
    commaCorrect ((runPipeline ctx children).map (fun r => r.comma)) = true :=
  runAux_comma ctx children children.length 0 (by simp) h

/-- Witness of the C3 amended theorem at a concrete one-feature run. -/
theorem claim_C3_witness :
    commaCorrect ((runPipeline ctxMatch [some fChild]).map (fun r => r.comma)) = true :=
  claim_C3_amended ctxMatch [some fChild]
    (Or.inr ⟨some fChild, by decide, by decide⟩)

end GeoLink

namespace GeoLink

/-! Level-1 scan lemmas. -/

theorem setPS_setPS (p : Props) (v v' : Option JVal) : setPS (setPS p v) v' = setPS p v' := rfl

theorem setPS_self (p : Props) : setPS p p.parent_state = p := rfl

theorem jLoop1_ps (ctx : Ctx) (cf pc : Feature) (candParts : List Feature) (st : L1State) :
    ∃ v, (jLoop1 ctx cf pc candParts st).ps = setPS st.ps v := by
  induction candParts with
  | nil => exact ⟨st.ps.parent_state, rfl⟩
  | cons pa rest ih =>
    simp only [jLoop1]
    cases heval : pairEval1 ctx pc pa with
    | some b =>
      cases b with
      | true => exact ⟨some (shapeNameVal cf), rfl⟩
      | false =>
        by_cases hms : truthy st.ms = true
        · rw [if_pos hms]; exact ⟨st.ps.parent_state, rfl⟩
        · rw [if_neg hms]; exact ih
    | none => exact ih

theorem iLoop1_ps (ctx : Ctx) (cf : Feature) (childParts candParts : List Feature) :
    ∀ st, ∃ v, (iLoop1 ctx cf childParts candParts st).ps = setPS st.ps v := by
  induction childParts with
  | nil => intro st; exact ⟨st.ps.parent_state, rfl⟩
  | cons pc rest ih =>
    intro st
    simp only [iLoop1]
    rcases jLoop1_ps ctx cf pc candParts st with ⟨v1, h1⟩
    by_cases hms : truthy (jLoop1 ctx cf pc candParts st).ms = true
    · rw [if_pos hms]; exact ⟨v1, h1⟩
    · rw [if_neg hms]
      rcases ih (jLoop1 ctx cf pc candParts st) with ⟨v2, h2⟩
      exact ⟨v2, by rw [h2, h1, setPS_setPS]⟩

theorem candLoop1_ps (ctx : Ctx) (childParts : List Feature) (cands : List IndexEntry) :
    ∀ st, ∃ v, (candLoop1 ctx childParts cands st).ps = setPS st.ps v := by
  induction cands with
  | nil => intro st; exact ⟨st.ps.parent_state, rfl⟩
  | cons e rest ih =>
    intro st
    simp only [candLoop1]
    split
    · exact ih st
    rename_i cf hof
    split
    · exact ih st
    rename_i p hp
    rcases iLoop1_ps ctx cf childParts (getPolygons cf) st with ⟨v1, h1⟩
    by_cases hms : truthy (iLoop1 ctx cf childParts (getPolygons cf) st).ms = true
    · rw [if_pos hms]; exact ⟨v1, h1⟩
    · rw [if_neg hms]
      rcases ih (iLoop1 ctx cf childParts (getPolygons cf) st) with ⟨v2, h2⟩
      exact ⟨v2, by rw [h2, h1, setPS_setPS]⟩

theorem jLoop1_inv (ctx : Ctx) (cf pc : Feature) (candParts : List Feature) (st : L1State)
    (h : truthy st.ms = true → st.ps.parent_state = some st.ms) :
    truthy (jLoop1 ctx cf pc candParts st).ms = true →
      (jLoop1 ctx cf pc candParts st).ps.parent_state = some (jLoop1 ctx cf pc candParts st).ms := by
  induction candParts with
  | nil => exact h
  | cons pa rest ih =>
    simp only [jLoop1]
    cases heval : pairEval1 ctx pc pa with
    | some b =>
      cases b with
      | true => intro _; rfl
      | false =>
        by_cases hms : truthy st.ms = true
        · rw [if_pos hms]; exact h
        · rw [if_neg hms]; exact ih
    | none => exact ih

theorem iLoop1_inv (ctx : Ctx) (cf : Feature) (childParts candParts : List Feature) :
    ∀ st, (truthy st.ms = true → st.ps.parent_state = some st.ms) →
    truthy (iLoop1 ctx cf childParts candParts st).ms = true →
      (iLoop1 ctx cf childParts candParts st).ps.parent_state
        = some (iLoop1 ctx cf childParts candParts st).ms := by
  induction childParts with
  | nil => intro st h; exact h
  | cons pc rest ih =>
    intro st h
    simp only [iLoop1]
    by_cases hms : truthy (jLoop1 ctx cf pc candParts st).ms = true
    · rw [if_pos hms]; exact jLoop1_inv ctx cf pc candParts st h
    · rw [if_neg hms]
      exact ih (jLoop1 ctx cf pc candParts st) (jLoop1_inv ctx cf pc candParts st h)

theorem candLoop1_inv (ctx : Ctx) (childParts : List Feature) (cands : List IndexEntry) :
    ∀ st, (truthy st.ms = true → st.ps.parent_state = some st.ms) →
    truthy (candLoop1 ctx childParts cands st).ms = true →
      (candLoop1 ctx childParts cands st).ps.parent_state
        = some (candLoop1 ctx childParts cands st).ms := by
  induction cands with
  | nil => intro st h; exact h
  | cons e rest ih =>
    intro st h
    simp only [candLoop1]
    split
    · exact ih st h
    rename_i cf hof
    split
    · exact ih st h
    rename_i p hp
    by_cases hms : truthy (iLoop1 ctx cf childParts (getPolygons cf) st).ms = true
    · rw [if_pos hms]; exact iLoop1_inv ctx cf childParts (getPolygons cf) st h
    · rw [if_neg hms]
      exact ih (iLoop1 ctx cf childParts (getPolygons cf) st)
        (iLoop1_inv ctx cf childParts (getPolygons cf) st h)

theorem getD_some_mem {α : Type} {l : List (Option α)} {i : Nat} {f : α}
    (h : l.getD i none = some f) : some f ∈ l := by
  unfold List.getD at h
  cases hg : l.get? i with
  | none => rw [hg] at h; exact absurd h (by simp)
  | some x =>
    rw [hg] at h
    simp only [Option.getD_some] at h
    rw [h] at hg
    exact List.get?_mem hg

theorem jLoop1_ms (ctx : Ctx) (cf pc : Feature) (candParts : List Feature) (st : L1State) :
    (jLoop1 ctx cf pc candParts st).ms = st.ms
      ∨ (jLoop1 ctx cf pc candParts st).ms = shapeNameVal cf := by
  induction candParts with
  | nil => exact Or.inl rfl
  | cons pa rest ih =>
    simp only [jLoop1]
    cases heval : pairEval1 ctx pc pa with
    | some b =>
      cases b with
      | true => exact Or.inr rfl
      | false =>
        by_cases hms : truthy st.ms = true
        · rw [if_pos hms]; exact Or.inl rfl
        · rw [if_neg hms]; exact ih
    | none => exact ih

theorem iLoop1_ms (ctx : Ctx) (cf : Feature) (childParts candParts : List Feature) :
    ∀ st, (iLoop1 ctx cf childParts candParts st).ms = st.ms
      ∨ (iLoop1 ctx cf childParts candParts st).ms = shapeNameVal cf := by
  induction childParts with
  | nil => intro st; exact Or.inl rfl
  | cons pc rest ih =>
    intro st
    simp only [iLoop1]
    by_cases hms : truthy (jLoop1 ctx cf pc candParts st).ms = true
    · rw [if_pos hms]; exact jLoop1_ms ctx cf pc candParts st
    · rw [if_neg hms]
      rcases ih (jLoop1 ctx cf pc candParts st) with h | h
      · rcases jLoop1_ms ctx cf pc candParts st with h' | h'
        · exact Or.inl (h.trans h')
        · exact Or.inr (h.trans h')
      · exact Or.inr h

theorem candLoop1_ms (ctx : Ctx) (childParts : List Feature) (cands : List IndexEntry) :
    ∀ st, (candLoop1 ctx childParts cands st).ms = st.ms
      ∨ ∃ f', some f' ∈ ctx.adm1Features
          ∧ (candLoop1 ctx childParts cands st).ms = shapeNameVal f' := by
  induction cands with
  | nil => intro st; exact Or.inl rfl
  | cons e rest ih =>
    intro st
    simp only [candLoop1]
    split
    · exact ih st
    rename_i cf hof
    split
    · exact ih st
    rename_i p hp
    by_cases hms : truthy (iLoop1 ctx cf childParts (getPolygons cf) st).ms = true
    · rw [if_pos hms]
      rcases iLoop1_ms ctx cf childParts (getPolygons cf) st with h | h
      · exact Or.inl h
      · exact Or.inr ⟨cf, getD_some_mem hof, h⟩
    · rw [if_neg hms]
      rcases ih (iLoop1 ctx cf childParts (getPolygons cf) st) with h | h
      · rcases iLoop1_ms ctx cf childParts (getPolygons cf) st with h' | h'
        · exact Or.inl (h.trans h')
        · exact Or.inr ⟨cf, getD_some_mem hof, h.trans h'⟩
      · exact Or.inr h

end GeoLink

namespace GeoLink

/-! Level-2 scan lemmas: the loops are entered with `foundParent` unset. -/

theorem jLoop2_found (ctx : Ctx) (cIdx : Nat) (cf pc : Feature) (candParts : List Feature) :
    ∀ st, st.found = false →
    (jLoop2 ctx cIdx cf pc candParts st).found
      = candParts.any (fun pa => pairEval2 ctx pc pa == some true) := by
  induction candParts with
  | nil => intro st h; simpa [jLoop2] using h
  | cons pa rest ih =>
    intro st h
    simp only [jLoop2, List.any_cons]
    split
    next heval =>
      rw [if_neg (by simp [h])]
      simp [heval]
    next heval =>
      rw [if_neg (by simp [h])]
      rw [ih ⟨st.ps, st.found, st.trace ++ [cIdx]⟩ (by simpa using h)]
      simp [heval]
    next heval =>
      rw [ih ⟨st.ps, st.found, st.trace ++ [cIdx]⟩ (by simpa using h)]
      simp [heval]

theorem jLoop2_ps (ctx : Ctx) (cIdx : Nat) (cf pc : Feature) (candParts : List Feature) :
    ∀ st, st.found = false →
    (jLoop2 ctx cIdx cf pc candParts st).ps
      = if candParts.any (fun pa => pairEval2 ctx pc pa == some true)
        then assignProps st.ps cf else st.ps := by
  induction candParts with
  | nil => intro st h; simp [jLoop2]
  | cons pa rest ih =>
    intro st h
    simp only [jLoop2, List.any_cons]
    split
    next heval =>
      rw [if_neg (by simp [h])]
      simp [heval, assignProps]
    next heval =>
      rw [if_neg (by simp [h])]
      rw [ih ⟨st.ps, st.found, st.trace ++ [cIdx]⟩ (by simpa using h)]
      simp [heval]
    next heval =>
      rw [ih ⟨st.ps, st.found, st.trace ++ [cIdx]⟩ (by simpa using h)]
      simp [heval]

theorem jLoop2_trace (ctx : Ctx) (cIdx : Nat) (cf pc : Feature) (candParts : List Feature) :
    ∀ st x, x ∈ (jLoop2 ctx cIdx cf pc candParts st).trace → x ∈ st.trace ∨ x = cIdx := by
  induction candParts with
  | nil => intro st x hx; exact Or.inl hx
  | cons pa rest ih =>
    intro st x hx
    simp only [jLoop2] at hx
    have hsub : ∀ y, y ∈ st.trace ++ [cIdx] → y ∈ st.trace ∨ y = cIdx := by
      intro y hy
      simpa using (List.mem_append.mp hy).imp_right (by simp)
    split at hx
    next heval =>
      by_cases hf : st.found = true
      · rw [if_pos (by simp [hf])] at hx
        exact hsub x hx
      · rw [if_neg (by simpa using hf)] at hx
        exact hsub x hx
    next heval =>
      by_cases hf : st.found = true
      · rw [if_pos (by simp [hf])] at hx
        exact hsub x hx
      · rw [if_neg (by simpa using hf)] at hx
        rcases ih _ x hx with hmem | hj
        · exact hsub x hmem
        · exact Or.inr hj
    next heval =>
      rcases ih _ x hx with hmem | hj
      · exact hsub x hmem
      · exact Or.inr hj

theorem iLoop2_found (ctx : Ctx) (cIdx : Nat) (cf : Feature) (childParts candParts : List Feature) :
    ∀ st, st.found = false →
    (iLoop2 ctx cIdx cf childParts candParts st).found
      = childParts.any (fun pc => candParts.any (fun pa => pairEval2 ctx pc pa == some true)) := by
  induction childParts with
  | nil => intro st h; simpa [iLoop2] using h
  | cons pc rest ih =>
    intro st h
    simp only [iLoop2, List.any_cons]
    have hfound := jLoop2_found ctx cIdx cf pc candParts st h
    by_cases hh : candParts.any (fun pa => pairEval2 ctx pc pa == some true) = true
    · rw [if_pos (by rw [hfound, hh])]
      simp [hfound, hh]
    · have hf' : (jLoop2 ctx cIdx cf pc candParts st).found = false := by
        rw [hfound]; simpa using hh
      rw [if_neg (by simp [hf'])]
      simp [ih _ hf', hh]

theorem iLoop2_ps (ctx : Ctx) (cIdx : Nat) (cf : Feature) (childParts candParts : List Feature) :
    ∀ st, st.found = false →
    (iLoop2 ctx cIdx cf childParts candParts st).ps
      = if childParts.any (fun pc => candParts.any (fun pa => pairEval2 ctx pc pa == some true))
        then assignProps st.ps cf else st.ps := by
  induction childParts with
  | nil => intro st h; simp [iLoop2]
  | cons pc rest ih =>
    intro st h
    simp only [iLoop2, List.any_cons]
    have hfound := jLoop2_found ctx cIdx cf pc candParts st h
    have hps := jLoop2_ps ctx cIdx cf pc candParts st h
    by_cases hh : candParts.any (fun pa => pairEval2 ctx pc pa == some true) = true
    · rw [if_pos (by rw [hfound, hh])]
      simp [hps, hh]
    · have hf' : (jLoop2 ctx cIdx cf pc candParts st).found = false := by
        rw [hfound]; simpa using hh
      rw [if_neg (by simp [hf'])]
      rw [ih _ hf']
      rw [hps, if_neg hh]
      simp [hh]

theorem iLoop2_trace (ctx : Ctx) (cIdx : Nat) (cf : Feature) (childParts candParts : List Feature) :
    ∀ st x, x ∈ (iLoop2 ctx cIdx cf childParts candParts st).trace → x ∈ st.trace ∨ x = cIdx := by
  induction childParts with
  | nil => intro st x hx; exact Or.inl hx
  | cons pc rest ih =>
    intro st x hx
    simp only [iLoop2] at hx
    by_cases hf : (jLoop2 ctx cIdx cf pc candParts st).found = true
    · rw [if_pos hf] at hx
      exact jLoop2_trace ctx cIdx cf pc candParts st x hx
    · rw [if_neg hf] at hx
      rcases ih _ x hx with hmem | hj
      · exact jLoop2_trace ctx cIdx cf pc candParts st x hmem
      · exact Or.inr hj

end GeoLink

namespace GeoLink

/-! Outer level-2 loop: first-match characterization. -/

theorem upTo2_cons_nomatch (ctx : Ctx) (childParts : List Feature) (j : Nat) (cf : Feature)
    (rest : List (Nat × Feature)) (hcm : candMatches2 ctx childParts cf = false) :
    upTo2 ctx childParts ((j, cf) :: rest) = (j, cf) :: upTo2 ctx childParts rest := by
  simp [upTo2, List.takeWhile_cons, firstMatch2, List.find?_cons_of_neg, hcm]

theorem upTo2_cons_match (ctx : Ctx) (childParts : List Feature) (j : Nat) (cf : Feature)
    (rest : List (Nat × Feature)) (hcm : candMatches2 ctx childParts cf = true) :
    upTo2 ctx childParts ((j, cf) :: rest) = [(j, cf)] := by
  simp [upTo2, List.takeWhile_cons, firstMatch2, List.find?_cons_of_pos, hcm]

theorem candLoop2_found (ctx : Ctx) (childParts : List Feature) (group : List (Nat × Feature)) :
    ∀ st, st.found = false →
    (candLoop2 ctx childParts group st).found = (firstMatch2 ctx childParts group).isSome := by
  induction group with
  | nil => intro st h; simpa [candLoop2, firstMatch2] using h
  | cons q rest ih =>
    intro st h
    obtain ⟨j, cf⟩ := q
    simp only [candLoop2]
    split
    next hp =>
      have hcm : candMatches2 ctx childParts cf = false := by
        simp [candMatches2, hp]
      rw [ih st h]
      simp [firstMatch2, List.find?_cons_of_neg, hcm]
    next p hp =>
      have hfound := iLoop2_found ctx j cf childParts (getPolygons cf) st h
      have hcm : candMatches2 ctx childParts cf
          = childParts.any (fun pc => (getPolygons cf).any (fun pa => pairEval2 ctx pc pa == some true)) := by
        simp [candMatches2, hp]
      by_cases hm : childParts.any
          (fun pc => (getPolygons cf).any (fun pa => pairEval2 ctx pc pa == some true)) = true
      · rw [if_pos (by rw [hfound, hm])]
        rw [hfound, hm]
        have hcm' : candMatches2 ctx childParts cf = true := by rw [hcm, hm]
        simp [firstMatch2, List.find?_cons_of_pos, hcm']
      · have hf' : (iLoop2 ctx j cf childParts (getPolygons cf) st).found = false := by
          rw [hfound]; simpa using hm
        rw [if_neg (by simp [hf'])]
        rw [ih _ hf']
        have hcm' : candMatches2 ctx childParts cf = false := by
          rw [hcm]; simpa using hm
        simp [firstMatch2, List.find?_cons_of_neg, hcm']

theorem candLoop2_ps (ctx : Ctx) (childParts : List Feature) (group : List (Nat × Feature)) :
    ∀ st, st.found = false →
    (candLoop2 ctx childParts group st).ps
      = match firstMatch2 ctx childParts group with
        | some q => assignProps st.ps q.2
        | none => st.ps := by
  induction group with
  | nil => intro st h; simp [candLoop2, firstMatch2]
  | cons q rest ih =>
    intro st h
    obtain ⟨j, cf⟩ := q
    simp only [candLoop2]
    split
    next hp =>
      have hcm : candMatches2 ctx childParts cf = false := by
        simp [candMatches2, hp]
      rw [ih st h]
      simp [firstMatch2, List.find?_cons_of_neg, hcm]
    next p hp =>
      have hfound := iLoop2_found ctx j cf childParts (getPolygons cf) st h
      have hps := iLoop2_ps ctx j cf childParts (getPolygons cf) st h
      have hcm : candMatches2 ctx childParts cf
          = childParts.any (fun pc => (getPolygons cf).any (fun pa => pairEval2 ctx pc pa == some true)) := by
        simp [candMatches2, hp]
      by_cases hm : childParts.any
          (fun pc => (getPolygons cf).any (fun pa => pairEval2 ctx pc pa == some true)) = true
      · rw [if_pos (by rw [hfound, hm])]
        have hcm' : candMatches2 ctx childParts cf = true := by rw [hcm, hm]
        rw [hps, if_pos hm]
        simp [firstMatch2, List.find?_cons_of_pos, hcm']
      · have hf' : (iLoop2 ctx j cf childParts (getPolygons cf) st).found = false := by
          rw [hfound]; simpa using hm
        rw [if_neg (by simp [hf'])]
        rw [ih _ hf']
        have hcm' : candMatches2 ctx childParts cf = false := by
          rw [hcm]; simpa using hm
        rw [hps, if_neg hm]
        simp [firstMatch2, List.find?_cons_of_neg, hcm']

theorem candLoop2_trace (ctx : Ctx) (childParts : List Feature) (group : List (Nat × Feature)) :
    ∀ st, st.found = false →
    ∀ x ∈ (candLoop2 ctx childParts group st).trace,
      x ∈ st.trace ∨ x ∈ (upTo2 ctx childParts group).map Prod.fst := by
  induction group with
  | nil => intro st _ x hx; exact Or.inl hx
  | cons q rest ih =>
    intro st h x hx
    obtain ⟨j, cf⟩ := q
    simp only [candLoop2] at hx
    split at hx
    next hp =>
      have hcm : candMatches2 ctx childParts cf = false := by
        simp [candMatches2, hp]
      rcases ih st h x hx with hl | hr
      · exact Or.inl hl
      · refine Or.inr ?_
        rw [upTo2_cons_nomatch ctx childParts j cf rest hcm]
        simpa using Or.inr hr
    next p hp =>
      have hfound := iLoop2_found ctx j cf childParts (getPolygons cf) st h
      have hcm : candMatches2 ctx childParts cf
          = childParts.any (fun pc => (getPolygons cf).any (fun pa => pairEval2 ctx pc pa == some true)) := by
        simp [candMatches2, hp]
      by_cases hm : childParts.any
          (fun pc => (getPolygons cf).any (fun pa => pairEval2 ctx pc pa == some true)) = true
      · rw [if_pos (by rw [hfound, hm])] at hx
        have hcm' : candMatches2 ctx childParts cf = true := by rw [hcm, hm]
        rcases iLoop2_trace ctx j cf childParts (getPolygons cf) st x hx with hl | hr
        · exact Or.inl hl
        · refine Or.inr ?_
          rw [upTo2_cons_match ctx childParts j cf rest hcm']
          simp [hr]
      · have hf' : (iLoop2 ctx j cf childParts (getPolygons cf) st).found = false := by
          rw [hfound]; simpa using hm
        rw [if_neg (by simp [hf'])] at hx
        have hcm' : candMatches2 ctx childParts cf = false := by
          rw [hcm]; simpa using hm
        rcases ih _ hf' x hx with hl | hr
        · rcases iLoop2_trace ctx j cf childParts (getPolygons cf) st x hl with hl2 | hr2
          · exact Or.inl hl2
          · refine Or.inr ?_
            rw [upTo2_cons_nomatch ctx childParts j cf rest hcm']
            simp [hr2]
        · refine Or.inr ?_
          rw [upTo2_cons_nomatch ctx childParts j cf rest hcm']
          simpa using Or.inr hr

end GeoLink

namespace GeoLink

/-! Path characterization of `processFeature`. -/

theorem coerceNull_falsy (o : Option JVal) (h : truthyOpt o = false) : coerceNull o = JVal.jnull := by
  cases o with
  | none => rfl
  | some v =>
    simp only [truthyOpt] at h
    simp [coerceNull, h]

theorem processFeature_props_none (ctx : Ctx) (f : Feature) (hp : f.props = none) :
    processFeature ctx f = noResult f := by
  simp [processFeature, hp]

theorem processFeature_geom_none (ctx : Ctx) (f : Feature) (hg : f.geom = none) :
    processFeature ctx f = noResult f := by
  cases hp : f.props <;> simp [processFeature, hp, hg]

theorem processFeature_bbox_none (ctx : Ctx) (f : Feature) (p0 : Props) (g0 : Geometry)
    (hp : f.props = some p0) (hg : f.geom = some g0) (hbb : bboxF ctx f = none) :
    processFeature ctx f = noResult f := by
  simp [processFeature, hp, hg, hbb]

theorem processFeature_parts_nil (ctx : Ctx) (f : Feature) (p0 : Props) (g0 : Geometry) (bx : Box)
    (hp : f.props = some p0) (hg : f.geom = some g0) (hbb : bboxF ctx f = some bx)
    (hlen : (getPolygons f).length = 0) :
    processFeature ctx f = noResult f := by
  simp [processFeature, hp, hg, hbb, hlen]

theorem processFeature_no_truthy (ctx : Ctx) (f : Feature) (p0 : Props) (g0 : Geometry) (bx : Box)
    (hp : f.props = some p0) (hg : f.geom = some g0) (hbb : bboxF ctx f = some bx)
    (hlen : ¬ (getPolygons f).length = 0)
    (hms : truthy (candLoop1 ctx (getPolygons f) (treeSearch ctx bx) ⟨JVal.jnull, p0⟩).ms = false) :
    processFeature ctx f
      = ⟨some (candLoop1 ctx (getPolygons f) (treeSearch ctx bx) ⟨JVal.jnull, p0⟩).ps,
         (candLoop1 ctx (getPolygons f) (treeSearch ctx bx) ⟨JVal.jnull, p0⟩).ms,
         false, 0, []⟩ := by
  simp [processFeature, hp, hg, hbb, hlen, hms]

theorem processFeature_ms (ctx : Ctx) (f : Feature) (p0 : Props) (g0 : Geometry) (bx : Box)
    (hp : f.props = some p0) (hg : f.geom = some g0) (hbb : bboxF ctx f = some bx)
    (hlen : ¬ (getPolygons f).length = 0) :
    (processFeature ctx f).ms
      = (candLoop1 ctx (getPolygons f) (treeSearch ctx bx) ⟨JVal.jnull, p0⟩).ms := by
  simp only [processFeature, hp, hg, hbb]
  rw [if_neg hlen]
  split
  · split
    · split <;> rfl
    all_goals rfl
  · rfl

theorem processFeature_jstr (ctx : Ctx) (f : Feature) (p0 : Props) (g0 : Geometry) (bx : Box) (s : String)
    (hp : f.props = some p0) (hg : f.geom = some g0) (hbb : bboxF ctx f = some bx)
    (hlen : ¬ (getPolygons f).length = 0)
    (hms : (candLoop1 ctx (getPolygons f) (treeSearch ctx bx) ⟨JVal.jnull, p0⟩).ms = JVal.jstr s)
    (hs : ¬ s = "") :
    processFeature ctx f
      = (if (candLoop2 ctx (getPolygons f) (adm2Group ctx (normKey s))
              ⟨(candLoop1 ctx (getPolygons f) (treeSearch ctx bx) ⟨JVal.jnull, p0⟩).ps, false, []⟩).found
         then ⟨some (candLoop2 ctx (getPolygons f) (adm2Group ctx (normKey s))
                 ⟨(candLoop1 ctx (getPolygons f) (treeSearch ctx bx) ⟨JVal.jnull, p0⟩).ps, false, []⟩).ps,
               JVal.jstr s, true, 1,
               (candLoop2 ctx (getPolygons f) (adm2Group ctx (normKey s))
                 ⟨(candLoop1 ctx (getPolygons f) (treeSearch ctx bx) ⟨JVal.jnull, p0⟩).ps, false, []⟩).trace⟩
         else ⟨some { (candLoop2 ctx (getPolygons f) (adm2Group ctx (normKey s))
                 ⟨(candLoop1 ctx (getPolygons f) (treeSearch ctx bx) ⟨JVal.jnull, p0⟩).ps, false, []⟩).ps with
                      parent_name := some (JVal.jstr s), state_name := some (JVal.jstr s) },
               JVal.jstr s, false, 1,
               (candLoop2 ctx (getPolygons f) (adm2Group ctx (normKey s))
                 ⟨(candLoop1 ctx (getPolygons f) (treeSearch ctx bx) ⟨JVal.jnull, p0⟩).ps, false, []⟩).trace⟩) := by
  simp [processFeature, hp, hg, hbb, hlen, hms, truthy, hs]

end GeoLink



namespace GeoLink

/-! Membership of the fixed output keys. -/

theorem coerceNull_truthy (v : JVal) (hv : truthy v = true) : coerceNull (some v) = v := by
  simp [coerceNull, hv]

theorem outputProps_mem_parent_id_null (p : Props) (h : truthyOpt p.parent_id = false) :
    ("parent_id", JVal.jnull) ∈ outputProps p := by
  have hc : coerceNull p.parent_id = JVal.jnull := coerceNull_falsy _ h
  unfold outputProps
  rw [hc]
  exact List.mem_cons_of_mem _ (List.mem_cons_of_mem _ (List.mem_cons_self _ _))

theorem outputProps_mem_parent_name_null (p : Props) (h : truthyOpt p.parent_name = false) :
    ("parent_name", JVal.jnull) ∈ outputProps p := by
  have hc : coerceNull p.parent_name = JVal.jnull := coerceNull_falsy _ h
  unfold outputProps
  rw [hc]
  exact List.mem_cons_of_mem _ (List.mem_cons_of_mem _
    (List.mem_cons_of_mem _ (List.mem_cons_self _ _)))

theorem outputProps_mem_parent_name (p : Props) (v : JVal) (hpn : p.parent_name = some v)
    (hv : truthy v = true) : ("parent_name", v) ∈ outputProps p := by
  have hc : coerceNull p.parent_name = v := by rw [hpn]; exact coerceNull_truthy v hv
  unfold outputProps
  rw [hc]
  exact List.mem_cons_of_mem _ (List.mem_cons_of_mem _
    (List.mem_cons_of_mem _ (List.mem_cons_self _ _)))

theorem outputProps_mem_state_name (p : Props) (v : JVal) (hsn : p.state_name = some v)
    (hv : truthy v = true) : ("state_name", v) ∈ outputProps p := by
  have hc : coerceNull p.state_name = v := by rw [hsn]; exact coerceNull_truthy v hv
  unfold outputProps
  rw [hc]
  exact List.mem_cons_of_mem _ (List.mem_cons_of_mem _ (List.mem_cons_of_mem _
    (List.mem_cons_of_mem _ (List.mem_cons_self _ _))))

theorem outputProps_mem_parent_state (p : Props) (v : JVal) (hps : p.parent_state = some v)
    (hv : truthy v = true) : ("parent_state", v) ∈ outputProps p := by
  have hc : coerceNull p.parent_state = v := by rw [hps]; exact coerceNull_truthy v hv
  unfold outputProps
  rw [hc]
  exact List.mem_cons_of_mem _ (List.mem_cons_of_mem _ (List.mem_cons_of_mem _
    (List.mem_cons_of_mem _ (List.mem_cons_of_mem _ (List.mem_cons_self _ _)))))

/-- C5 counterexample: in `ctxBadBox` the child bounding box is
uncomputable, the index holds a candidate whose predicate pair would be
truthy, and the full candidate list is nonempty — yet the child obtains no
level-1 winner at all: `processFeature` returns before any matching, so
the fallback to `all()` that the claim describes never happens. -/
theorem claim_C5_counterexample :
    bboxF ctxBadBox fChildBad = none ∧
    treeAll ctxBadBox = [{ box := boxAll, idx := 0 }] ∧
    pairEval1 ctxBadBox fChildBad fState = some true ∧
    (processFeature ctxBadBox fChildBad).ms = JVal.jnull ∧
    (processFeature ctxBadBox fChildBad).props = fChildBad.props :=
  ⟨by decide, by decide, by decide, by decide, by decide⟩

/-- C5 (amended): when the bounding box of a structurally valid child is
uncomputable, `processFeature` returns early: the child is left untouched
and no level-1 matching — in particular no scan of the full candidate
list — takes place; the `adm1Tree.all()` branch is unreachable because a
successful bbox call always yields a truthy array. -/
theorem claim_C5_amended (ctx : Ctx) (f : Feature) (p0 : Props) (g0 : Geometry)
    (hp : f.props = some p0) (hg : f.geom = some g0) (hbb : bboxF ctx f = none) :
    processFeature ctx f = noResult f ∧ truthy (processFeature ctx f).ms = false := by
  have h := processFeature_bbox_none ctx f p0 g0 hp hg hbb
  exact ⟨h, by rw [h]; rfl⟩

/-- Witness of the C5 amended theorem on the concrete degenerate child. -/
theorem claim_C5_witness :
    processFeature ctxBadBox fChildBad = noResult fChildBad ∧
    truthy (processFeature ctxBadBox fChildBad).ms = false :=
  claim_C5_amended ctxBadBox fChildBad
    { shapeID := some (JVal.jstr "C1"), shapeName := some (JVal.jstr "ChildQ") } gBad
    (by decide) (by decide) (by decide)

/-- C6: for a child that does not carry truthy pre-existing parent keys
(the boundary datasets do not), if no level-1 winner was found, the
emitted record carries explicit `parent_id = null` and
`parent_name = null`, and the level-2 grouping table is never consulted. -/
theorem claim_C6_theorem (ctx : Ctx) (f : Feature)
    (hpid : truthyOpt ((f.props.getD {}).parent_id) = false)
    (hpname : truthyOpt ((f.props.getD {}).parent_name) = false)
    (hnw : truthy (processFeature ctx f).ms = false) :
    (processFeature ctx f).lookups = 0 ∧
    ("parent_id", JVal.jnull) ∈ outputProps ((processFeature ctx f).props.getD {}) ∧
    ("parent_name", JVal.jnull) ∈ outputProps ((processFeature ctx f).props.getD {}) := by
  cases hp : f.props with
  | none =>
    rw [processFeature_props_none ctx f hp]
    refine ⟨rfl, ?_, ?_⟩
    · exact outputProps_mem_parent_id_null _ (by simp [noResult, hp, truthyOpt])
    · exact outputProps_mem_parent_name_null _ (by simp [noResult, hp, truthyOpt])
  | some p0 =>
    have hpid0 : truthyOpt p0.parent_id = false := by rwa [hp] at hpid
    have hpname0 : truthyOpt p0.parent_name = false := by rwa [hp] at hpname
    cases hg : f.geom with
    | none =>
      rw [processFeature_geom_none ctx f hg]
      refine ⟨rfl, ?_, ?_⟩
      · exact outputProps_mem_parent_id_null _ (by simp [noResult, hp, hpid0])
      · exact outputProps_mem_parent_name_null _ (by simp [noResult, hp, hpname0])
    | some g0 =>
      cases hbb : bboxF ctx f with
      | none =>
        rw [processFeature_bbox_none ctx f p0 g0 hp hg hbb]
        refine ⟨rfl, ?_, ?_⟩
        · exact outputProps_mem_parent_id_null _ (by simp [noResult, hp, hpid0])
        · exact outputProps_mem_parent_name_null _ (by simp [noResult, hp, hpname0])
      | some bx =>
        by_cases hlen : (getPolygons f).length = 0
        · rw [processFeature_parts_nil ctx f p0 g0 bx hp hg hbb hlen]
          refine ⟨rfl, ?_, ?_⟩
          · exact outputProps_mem_parent_id_null _ (by simp [noResult, hp, hpid0])
          · exact outputProps_mem_parent_name_null _ (by simp [noResult, hp, hpname0])
        · by_cases hms : truthy (candLoop1 ctx (getPolygons f) (treeSearch ctx bx)
              ⟨JVal.jnull, p0⟩).ms = true
          · exfalso
            have := processFeature_ms ctx f p0 g0 bx hp hg hbb hlen
            rw [this, hms] at hnw
            exact Bool.noConfusion hnw
          · have hmsf : truthy (candLoop1 ctx (getPolygons f) (treeSearch ctx bx)
                ⟨JVal.jnull, p0⟩).ms = false := by
              cases h' : truthy (candLoop1 ctx (getPolygons f) (treeSearch ctx bx)
                  ⟨JVal.jnull, p0⟩).ms
              · rfl
              · exact absurd h' hms
            rw [processFeature_no_truthy ctx f p0 g0 bx hp hg hbb hlen hmsf]
            rcases candLoop1_ps ctx (getPolygons f) (treeSearch ctx bx) ⟨JVal.jnull, p0⟩
              with ⟨v, hv⟩
            refine ⟨rfl, ?_, ?_⟩
            · refine outputProps_mem_parent_id_null _ ?_
              simp only [Option.getD_some, hv]
              exact hpid0
            · refine outputProps_mem_parent_name_null _ ?_
              simp only [Option.getD_some, hv]
              exact hpname0

/-- Witness of the C6 theorem on a concrete run without any match. -/
theorem claim_C6_witness :
    (processFeature ctxNoMatch fChild).lookups = 0 ∧
    ("parent_id", JVal.jnull) ∈ outputProps ((processFeature ctxNoMatch fChild).props.getD {}) ∧
    ("parent_name", JVal.jnull) ∈ outputProps ((processFeature ctxNoMatch fChild).props.getD {}) :=
  claim_C6_theorem ctxNoMatch fChild (by decide) (by decide) (by decide)

end GeoLink

namespace GeoLink

/-- C7: for a child without a truthy pre-existing `parent_id`, when the
level-1 scan produced the (string) winner name `s` but the level-2 scan
found no parent, the emitted record carries `parent_name` and `state_name`
both equal to the winner name and an explicit `parent_id = null`. -/
theorem claim_C7_theorem (ctx : Ctx) (f : Feature) (s : String)
    (hpid : truthyOpt ((f.props.getD {}).parent_id) = false)
    (hms : (processFeature ctx f).ms = JVal.jstr s)
    (hs : ¬ s = "")
    (hnf : (processFeature ctx f).found = false) :
    ("parent_name", JVal.jstr s) ∈ outputProps ((processFeature ctx f).props.getD {}) ∧
    ("state_name", JVal.jstr s) ∈ outputProps ((processFeature ctx f).props.getD {}) ∧
    ("parent_id", JVal.jnull) ∈ outputProps ((processFeature ctx f).props.getD {}) := by
  have htruthy : truthy (JVal.jstr s) = true := by simp [truthy, hs]
  cases hp : f.props with
  | none =>
    rw [processFeature_props_none ctx f hp] at hms
    exact absurd hms (by simp [noResult])
  | some p0 =>
    have hpid0 : truthyOpt p0.parent_id = false := by rwa [hp] at hpid
    cases hg : f.geom with
    | none =>
      rw [processFeature_geom_none ctx f hg] at hms
      exact absurd hms (by simp [noResult])
    | some g0 =>
      cases hbb : bboxF ctx f with
      | none =>
        rw [processFeature_bbox_none ctx f p0 g0 hp hg hbb] at hms
        exact absurd hms (by simp [noResult])
      | some bx =>
        by_cases hlen : (getPolygons f).length = 0
        · rw [processFeature_parts_nil ctx f p0 g0 bx hp hg hbb hlen] at hms
          exact absurd hms (by simp [noResult])
        · have hms1 : (candLoop1 ctx (getPolygons f) (treeSearch ctx bx) ⟨JVal.jnull, p0⟩).ms
              = JVal.jstr s := by
            rw [← processFeature_ms ctx f p0 g0 bx hp hg hbb hlen]
            exact hms
          have hres := processFeature_jstr ctx f p0 g0 bx s hp hg hbb hlen hms1 hs
          by_cases hfd : (candLoop2 ctx (getPolygons f) (adm2Group ctx (normKey s))
              ⟨(candLoop1 ctx (getPolygons f) (treeSearch ctx bx) ⟨JVal.jnull, p0⟩).ps,
               false, []⟩).found = true
          · exfalso
            rw [hres, if_pos hfd] at hnf
            exact Bool.noConfusion hnf
          · have hfd' : (candLoop2 ctx (getPolygons f) (adm2Group ctx (normKey s))
                ⟨(candLoop1 ctx (getPolygons f) (treeSearch ctx bx) ⟨JVal.jnull, p0⟩).ps,
                 false, []⟩).found = false := by
              cases h' : (candLoop2 ctx (getPolygons f) (adm2Group ctx (normKey s))
                  ⟨(candLoop1 ctx (getPolygons f) (treeSearch ctx bx) ⟨JVal.jnull, p0⟩).ps,
                   false, []⟩).found
              · rfl
              · exact absurd h' hfd
            rw [hres, if_neg (by simp [hfd'])]
            -- with no level-2 winner the scan left the properties unchanged
            have hps2 : (candLoop2 ctx (getPolygons f) (adm2Group ctx (normKey s))
                ⟨(candLoop1 ctx (getPolygons f) (treeSearch ctx bx) ⟨JVal.jnull, p0⟩).ps,
                 false, []⟩).ps
                = (candLoop1 ctx (getPolygons f) (treeSearch ctx bx) ⟨JVal.jnull, p0⟩).ps := by
              have hcf := candLoop2_found ctx (getPolygons f) (adm2Group ctx (normKey s))
                ⟨(candLoop1 ctx (getPolygons f) (treeSearch ctx bx) ⟨JVal.jnull, p0⟩).ps,
                 false, []⟩ rfl
              rw [hfd'] at hcf
              have hfm : firstMatch2 ctx (getPolygons f) (adm2Group ctx (normKey s)) = none := by
                cases hfm' : firstMatch2 ctx (getPolygons f) (adm2Group ctx (normKey s))
                · rfl
                · rw [hfm'] at hcf; exact absurd hcf.symm (by simp)
              have := candLoop2_ps ctx (getPolygons f) (adm2Group ctx (normKey s))
                ⟨(candLoop1 ctx (getPolygons f) (treeSearch ctx bx) ⟨JVal.jnull, p0⟩).ps,
                 false, []⟩ rfl
              rw [hfm] at this
              exact this
            rcases candLoop1_ps ctx (getPolygons f) (treeSearch ctx bx) ⟨JVal.jnull, p0⟩
              with ⟨v, hv⟩
            refine ⟨?_, ?_, ?_⟩
            · exact outputProps_mem_parent_name _ _ (by simp) htruthy
            · exact outputProps_mem_state_name _ _ (by simp) htruthy
            · refine outputProps_mem_parent_id_null _ ?_
              simp only [Option.getD_some]
              show truthyOpt ({ (candLoop2 ctx (getPolygons f) (adm2Group ctx (normKey s))
                  ⟨(candLoop1 ctx (getPolygons f) (treeSearch ctx bx) ⟨JVal.jnull, p0⟩).ps,
                   false, []⟩).ps with
                  parent_name := some (JVal.jstr s),
                  state_name := some (JVal.jstr s) }).parent_id = false
              rw [hps2, hv]
              exact hpid0

/-- Witness of the C7 theorem on a concrete run in which only the state
matches. -/
theorem claim_C7_witness :
    ("parent_name", JVal.jstr "StateA")
      ∈ outputProps ((processFeature ctxL1Only fChild).props.getD {}) ∧
    ("state_name", JVal.jstr "StateA")
      ∈ outputProps ((processFeature ctxL1Only fChild).props.getD {}) ∧
    ("parent_id", JVal.jnull)
      ∈ outputProps ((processFeature ctxL1Only fChild).props.getD {}) :=
  claim_C7_theorem ctxL1Only fChild "StateA" (by decide) (by decide) (by decide) (by decide)

end GeoLink

namespace GeoLink

/-- C9: when every loaded ADM1 feature carries a string (or absent)
`shapeName` — as the boundary datasets do — a candidate whose `shapeName`
is absent or empty can never become the level-1 winner: any child that
ends up with a truthy `matchedState` got it from a candidate with a
nonempty string name, and the emitted `parent_state` is that nonempty
string. -/
theorem claim_C9_theorem (ctx : Ctx) (f : Feature)
    (hok : ctx.adm1Features.all shapeNameOk = true)
    (hw : truthy (processFeature ctx f).ms = true) :
    isStrB (processFeature ctx f).ms = true ∧
    ("parent_state", (processFeature ctx f).ms)
      ∈ outputProps ((processFeature ctx f).props.getD {}) := by
  cases hp : f.props with
  | none =>
    rw [processFeature_props_none ctx f hp] at hw
    exact absurd hw (by simp [noResult, truthy])
  | some p0 =>
    cases hg : f.geom with
    | none =>
      rw [processFeature_geom_none ctx f hg] at hw
      exact absurd hw (by simp [noResult, truthy])
    | some g0 =>
      cases hbb : bboxF ctx f with
      | none =>
        rw [processFeature_bbox_none ctx f p0 g0 hp hg hbb] at hw
        exact absurd hw (by simp [noResult, truthy])
      | some bx =>
        by_cases hlen : (getPolygons f).length = 0
        · rw [processFeature_parts_nil ctx f p0 g0 bx hp hg hbb hlen] at hw
          exact absurd hw (by simp [noResult, truthy])
        · have hmseq := processFeature_ms ctx f p0 g0 bx hp hg hbb hlen
          have hmst : truthy (candLoop1 ctx (getPolygons f) (treeSearch ctx bx)
              ⟨JVal.jnull, p0⟩).ms = true := by rw [← hmseq]; exact hw
          -- the truthy matchedState is some candidate shapeName
          rcases candLoop1_ms ctx (getPolygons f) (treeSearch ctx bx) ⟨JVal.jnull, p0⟩
            with hinit | ⟨f', hmem, hval⟩
          · rw [hinit] at hmst
            exact absurd hmst (by simp [truthy])
          · have hokf : shapeNameOk (some f') = true :=
              List.all_eq_true.mp hok (some f') hmem
            -- the typing forces a nonempty string
            obtain ⟨s, hs, hstr⟩ : ∃ s, ¬ s = "" ∧
                (candLoop1 ctx (getPolygons f) (treeSearch ctx bx) ⟨JVal.jnull, p0⟩).ms
                  = JVal.jstr s := by
              rw [hval] at hmst ⊢
              cases hfp : f'.props with
              | none =>
                simp only [shapeNameVal, hfp] at hmst
                exact absurd hmst (by simp [truthy])
              | some p' =>
                cases hsn : p'.shapeName with
                | none =>
                  simp only [shapeNameVal, hfp, hsn, Option.getD_none] at hmst
                  exact absurd hmst (by simp [truthy])
                | some v =>
                  cases v with
                  | jnull =>
                    simp only [shapeNameVal, hfp, hsn, Option.getD_some] at hmst
                    exact absurd hmst (by simp [truthy])
                  | jstr s =>
                    refine ⟨s, ?_, by simp [shapeNameVal, hfp, hsn]⟩
                    intro hse
                    simp only [shapeNameVal, hfp, hsn, hse, Option.getD_some] at hmst
                    exact absurd hmst (by simp [truthy])
                  | jnum n =>
                    exfalso
                    simp only [shapeNameOk, hfp, hsn] at hokf
                    exact Bool.noConfusion hokf
                  | jbool b =>
                    exfalso
                    simp only [shapeNameOk, hfp, hsn] at hokf
                    exact Bool.noConfusion hokf
            -- parent_state was written alongside the winner
            have hinv := candLoop1_inv ctx (getPolygons f) (treeSearch ctx bx)
              ⟨JVal.jnull, p0⟩ (fun h => absurd h (by simp [truthy])) hmst
            rw [hstr] at hinv
            refine ⟨by rw [hmseq, hstr]; rfl, ?_⟩
            rw [hmseq, hstr]
            have hres := processFeature_jstr ctx f p0 g0 bx s hp hg hbb hlen hstr hs
            have hpres : (candLoop2 ctx (getPolygons f) (adm2Group ctx (normKey s))
                ⟨(candLoop1 ctx (getPolygons f) (treeSearch ctx bx) ⟨JVal.jnull, p0⟩).ps,
                 false, []⟩).ps.parent_state
                = some (JVal.jstr s) := by
              have hcp := candLoop2_ps ctx (getPolygons f) (adm2Group ctx (normKey s))
                ⟨(candLoop1 ctx (getPolygons f) (treeSearch ctx bx) ⟨JVal.jnull, p0⟩).ps,
                 false, []⟩ rfl
              cases hfm : firstMatch2 ctx (getPolygons f) (adm2Group ctx (normKey s)) with
              | none =>
                rw [hfm] at hcp
                simp only at hcp
                rw [hcp]
                exact hinv
              | some q =>
                rw [hfm] at hcp
                simp only at hcp
                rw [hcp]
                show ((candLoop1 ctx (getPolygons f) (treeSearch ctx bx)
                    ⟨JVal.jnull, p0⟩).ps).parent_state = some (JVal.jstr s)
                exact hinv
            rw [hres]
            by_cases hfd : (candLoop2 ctx (getPolygons f) (adm2Group ctx (normKey s))
                ⟨(candLoop1 ctx (getPolygons f) (treeSearch ctx bx) ⟨JVal.jnull, p0⟩).ps,
                 false, []⟩).found = true
            · rw [if_pos hfd]
              exact outputProps_mem_parent_state _ _ (by simpa using hpres)
                (by simp [truthy, hs])
            · rw [if_neg hfd]
              exact outputProps_mem_parent_state _ _ (by simpa using hpres)
                (by simp [truthy, hs])

/-- Witness of the C9 theorem on the concrete matching run. -/
theorem claim_C9_witness :
    isStrB (processFeature ctxMatch fChild).ms = true ∧
    ("parent_state", (processFeature ctxMatch fChild).ms)
      ∈ outputProps ((processFeature ctxMatch fChild).props.getD {}) :=
  claim_C9_theorem ctxMatch fChild (by decide) (by decide)

end GeoLink

namespace GeoLink

/-- C1 counterexample: in the concrete run both stored group members match
the child, yet after the first success on member 0 the level-2 scan breaks
out of all loops: the evaluation trace is `[0]` and member 1 — although it
matches — is never iterated, refuting the clause that the remaining group
members are still iterated for predicate evaluation side effects. -/
theorem claim_C1_counterexample :
    (processFeature ctxMatch fChild).found = true ∧
    (adm2Group ctxMatch (normKey "StateA")).map Prod.fst = [0, 1] ∧
    candMatches2 ctxMatch (getPolygons fChild) fD1 = true ∧
    (processFeature ctxMatch fChild).l2trace = [0] ∧
    ¬ (1 ∈ (processFeature ctxMatch fChild).l2trace) :=
  ⟨by decide, by decide, by decide, by decide, by decide⟩

/-- C1 (amended): when the level-1 scan yields the (string) winner name
`s`, the level-2 winner is the FIRST candidate, in stored group order,
with a truthy (child-part, candidate-part) predicate chain, and the record
fields come from that first winner — but after the first success the scan
stops at once: no candidate past the first match is ever evaluated (the
trace stays within the group members up to and including the winner). -/
theorem claim_C1_theorem (ctx : Ctx) (f : Feature) (p0 : Props) (g0 : Geometry) (bx : Box) (s : String)
    (hp : f.props = some p0) (hg : f.geom = some g0) (hbb : bboxF ctx f = some bx)
    (hlen : ¬ (getPolygons f).length = 0)
    (hms : (candLoop1 ctx (getPolygons f) (treeSearch ctx bx) ⟨JVal.jnull, p0⟩).ms = JVal.jstr s)
    (hs : ¬ s = "") :
    ((processFeature ctx f).found
      = (firstMatch2 ctx (getPolygons f) (adm2Group ctx (normKey s))).isSome) ∧
    (∀ j c, firstMatch2 ctx (getPolygons f) (adm2Group ctx (normKey s)) = some (j, c) →
      ((processFeature ctx f).props.getD {}).parent_id
          = some (coerceNull ((c.props.getD {}).shapeID)) ∧
      ((processFeature ctx f).props.getD {}).parent_name
          = some (coerceNull ((c.props.getD {}).shapeName))) ∧
    (∀ x ∈ (processFeature ctx f).l2trace,
      x ∈ (upTo2 ctx (getPolygons f) (adm2Group ctx (normKey s))).map Prod.fst) := by
  have hres := processFeature_jstr ctx f p0 g0 bx s hp hg hbb hlen hms hs
  have hfound := candLoop2_found ctx (getPolygons f) (adm2Group ctx (normKey s))
    ⟨(candLoop1 ctx (getPolygons f) (treeSearch ctx bx) ⟨JVal.jnull, p0⟩).ps, false, []⟩ rfl
  have hps := candLoop2_ps ctx (getPolygons f) (adm2Group ctx (normKey s))
    ⟨(candLoop1 ctx (getPolygons f) (treeSearch ctx bx) ⟨JVal.jnull, p0⟩).ps, false, []⟩ rfl
  have htr := candLoop2_trace ctx (getPolygons f) (adm2Group ctx (normKey s))
    ⟨(candLoop1 ctx (getPolygons f) (treeSearch ctx bx) ⟨JVal.jnull, p0⟩).ps, false, []⟩ rfl
  refine ⟨?_, ?_, ?_⟩
  · rw [hres]
    by_cases hfd : (candLoop2 ctx (getPolygons f) (adm2Group ctx (normKey s))
        ⟨(candLoop1 ctx (getPolygons f) (treeSearch ctx bx) ⟨JVal.jnull, p0⟩).ps,
         false, []⟩).found = true
    · rw [if_pos hfd]
      show true = _
      rw [← hfound, hfd]
    · have hfd' : (candLoop2 ctx (getPolygons f) (adm2Group ctx (normKey s))
          ⟨(candLoop1 ctx (getPolygons f) (treeSearch ctx bx) ⟨JVal.jnull, p0⟩).ps,
           false, []⟩).found = false := by
        cases h' : (candLoop2 ctx (getPolygons f) (adm2Group ctx (normKey s))
            ⟨(candLoop1 ctx (getPolygons f) (treeSearch ctx bx) ⟨JVal.jnull, p0⟩).ps,
             false, []⟩).found
        · rfl
        · exact absurd h' hfd
      rw [if_neg (by simp [hfd'])]
      show false = _
      rw [← hfound, hfd']
  · intro j c hfm
    have hfdt : (candLoop2 ctx (getPolygons f) (adm2Group ctx (normKey s))
        ⟨(candLoop1 ctx (getPolygons f) (treeSearch ctx bx) ⟨JVal.jnull, p0⟩).ps,
         false, []⟩).found = true := by
      rw [hfound, hfm]
      rfl
    rw [hres, if_pos hfdt]
    simp only [Option.getD_some]
    simp only [hfm] at hps
    rw [hps]
    exact ⟨rfl, rfl⟩
  · intro x hx
    rw [hres] at hx
    have hxtrace : x ∈ (candLoop2 ctx (getPolygons f) (adm2Group ctx (normKey s))
        ⟨(candLoop1 ctx (getPolygons f) (treeSearch ctx bx) ⟨JVal.jnull, p0⟩).ps,
         false, []⟩).trace := by
      by_cases hfd : (candLoop2 ctx (getPolygons f) (adm2Group ctx (normKey s))
          ⟨(candLoop1 ctx (getPolygons f) (treeSearch ctx bx) ⟨JVal.jnull, p0⟩).ps,
           false, []⟩).found = true
      · rw [if_pos hfd] at hx; exact hx
      · rw [if_neg hfd] at hx; exact hx
    rcases htr x hxtrace with hmem | hup
    · exact absurd hmem (List.not_mem_nil x)
    · exact hup

/-- Witness of the C1 amended theorem on the concrete matching run:
the scan result agrees with the first-match characterization and the
record takes the first winner identity. -/
theorem claim_C1_witness :
    ((processFeature ctxMatch fChild).found
      = (firstMatch2 ctxMatch (getPolygons fChild) (adm2Group ctxMatch (normKey "StateA"))).isSome) ∧
    ((processFeature ctxMatch fChild).props.getD {}).parent_id
        = some (coerceNull ((fD0.props.getD {}).shapeID)) :=
  ⟨(claim_C1_theorem ctxMatch fChild
      { shapeID := some (JVal.jstr "C0"), shapeName := some (JVal.jstr "ChildP") }
      gChild boxAll "StateA"
      (by decide) (by decide) (by decide) (by decide) (by decide) (by decide)).1,
   ((claim_C1_theorem ctxMatch fChild
      { shapeID := some (JVal.jstr "C0"), shapeName := some (JVal.jstr "ChildP") }
      gChild boxAll "StateA"
      (by decide) (by decide) (by decide) (by decide) (by decide) (by decide)).2.1
      0 fD0 (by decide)).1⟩

end GeoLink

namespace GeoLink

/-! Shape of every emitted record. -/

theorem runAux_mem (ctx : Ctx) (rest : List (Option Feature)) :
    ∀ n g r, r ∈ runAux ctx n g rest → ∃ g' f, r = emitOne ctx n g' f := by
  induction rest with
  | nil => intro n g r hr; exact absurd hr (List.not_mem_nil r)
  | cons of tl ih =>
    intro n g r hr
    match of with
    | none => exact ih n (g + 1) r (by simpa [runAux] using hr)
    | some f =>
      by_cases hs : (f.props.isSome && f.geom.isSome) = true
      · simp only [runAux, if_pos hs] at hr
        rcases List.mem_cons.mp hr with rfl | hr'
        · exact ⟨g, f, rfl⟩
        · exact ih n (g + 1) r hr'
      · simp only [runAux, if_neg hs] at hr
        exact ih n (g + 1) r hr

theorem coerceNull_cases (o : Option JVal) :
    coerceNull o = JVal.jnull ∨ truthy (coerceNull o) = true := by
  cases o with
  | none => exact Or.inl rfl
  | some v =>
    by_cases hv : truthy v = true
    · right; simp [coerceNull, hv]
    · left
      simp only [coerceNull]
      rw [if_neg hv]

theorem outputProps_keys (p : Props) :
    (outputProps p).map Prod.fst
      = ["shapeID", "shapeName", "parent_id", "parent_name", "state_name", "parent_state"] := rfl

theorem outputProps_vals (p : Props) :
    ∀ kv ∈ outputProps p, kv.2 = JVal.jnull ∨ truthy kv.2 = true := by
  intro kv hkv
  simp only [outputProps, List.mem_cons, List.not_mem_nil, or_false] at hkv
  rcases hkv with rfl | rfl | rfl | rfl | rfl | rfl <;> exact coerceNull_cases _

/-- C10: the properties object of every emitted record carries exactly the six
keys `shapeID`, `shapeName`, `parent_id`, `parent_name`, `state_name`,
`parent_state` in this order (all other input keys are dropped), every
value is either `null` or truthy (falsy values are written as `null`), and
in particular a level-2 winner whose `shapeID` is falsy — empty string or
0 — yields an explicit `parent_id = null`. -/
theorem claim_C10_theorem :
    (∀ ctx children r, r ∈ runPipeline ctx children →
      r.oprops.map Prod.fst
        = ["shapeID", "shapeName", "parent_id", "parent_name", "state_name", "parent_state"] ∧
      ∀ kv ∈ r.oprops, kv.2 = JVal.jnull ∨ truthy kv.2 = true) ∧
    (∀ ctx childParts group ps0 j c,
      firstMatch2 ctx childParts group = some (j, c) →
      truthyOpt ((c.props.getD {}).shapeID) = false →
      (candLoop2 ctx childParts group ⟨ps0, false, []⟩).ps.parent_id = some JVal.jnull) := by
  constructor
  · intro ctx children r hr
    rcases runAux_mem ctx children children.length 0 r hr with ⟨g', f, rfl⟩
    exact ⟨outputProps_keys _, outputProps_vals _⟩
  · intro ctx childParts group ps0 j c hfm hid
    have hps := candLoop2_ps ctx childParts group ⟨ps0, false, []⟩ rfl
    simp only [hfm] at hps
    rw [hps]
    show some (coerceNull ((c.props.getD {}).shapeID)) = some JVal.jnull
    rw [coerceNull_falsy _ hid]

/-- Witness of the C10 theorem: the concrete emitted record has the six
keys, and the concrete run whose only district has an empty `shapeID`
writes `parent_id = null`. -/
theorem claim_C10_witness :
    (emitOne ctxMatch 1 0 fChild).oprops.map Prod.fst
      = ["shapeID", "shapeName", "parent_id", "parent_name", "state_name", "parent_state"] ∧
    (candLoop2 ctxEmptyID (getPolygons fChild) (adm2Group ctxEmptyID (normKey "StateA"))
      ⟨{}, false, []⟩).ps.parent_id = some JVal.jnull :=
  ⟨(claim_C10_theorem.1 ctxMatch [some fChild] (emitOne ctxMatch 1 0 fChild) (by decide)).1,
   claim_C10_theorem.2 ctxEmptyID (getPolygons fChild)
     (adm2Group ctxEmptyID (normKey "StateA")) {} 0 fDEmpty (by decide) (by decide)⟩

end GeoLink

namespace GeoLink

/-! Error pairs behave as non-matching pairs: congruence of the whole run
under any change of the predicates that preserves which pairs are truthy. -/

theorem bool_eq_false {b : Bool} (h : ¬ b = true) : b = false := by
  cases b with
  | false => rfl
  | true => exact absurd rfl h

theorem jLoop1_cons_hit (ctx : Ctx) (cf pc pa : Feature) (rest : List Feature) (st : L1State)
    (h : pairEval1 ctx pc pa = some true) :
    jLoop1 ctx cf pc (pa :: rest) st
      = ⟨shapeNameVal cf, { st.ps with parent_state := some (shapeNameVal cf) }⟩ := by
  simp [jLoop1, h]

theorem jLoop1_cons_nohit (ctx : Ctx) (cf pc pa : Feature) (rest : List Feature) (st : L1State)
    (h : ¬ pairEval1 ctx pc pa = some true) (hms : truthy st.ms = false) :
    jLoop1 ctx cf pc (pa :: rest) st = jLoop1 ctx cf pc rest st := by
  simp only [jLoop1]
  cases h2 : pairEval1 ctx pc pa with
  | some b =>
    cases b with
    | true => exact absurd h2 h
    | false => rw [if_neg (by simp [hms])]
  | none => rfl

theorem jLoop2_cons_hit (ctx : Ctx) (cIdx : Nat) (cf pc pa : Feature) (rest : List Feature)
    (st : L2State) (h : pairEval2 ctx pc pa = some true) (hf : st.found = false) :
    jLoop2 ctx cIdx cf pc (pa :: rest) st
      = ⟨assignProps st.ps cf, true, st.trace ++ [cIdx]⟩ := by
  simp [jLoop2, h, hf, assignProps]

theorem jLoop2_cons_nohit (ctx : Ctx) (cIdx : Nat) (cf pc pa : Feature) (rest : List Feature)
    (st : L2State) (h : ¬ pairEval2 ctx pc pa = some true) (hf : st.found = false) :
    jLoop2 ctx cIdx cf pc (pa :: rest) st
      = jLoop2 ctx cIdx cf pc rest ⟨st.ps, st.found, st.trace ++ [cIdx]⟩ := by
  simp only [jLoop2]
  cases h2 : pairEval2 ctx pc pa with
  | some b =>
    cases b with
    | true => exact absurd h2 h
    | false =>
      show (if st.found = true
            then ({ ps := st.ps, found := st.found, trace := st.trace ++ [cIdx] } : L2State)
            else jLoop2 ctx cIdx cf pc rest
              { ps := st.ps, found := st.found, trace := st.trace ++ [cIdx] })
          = jLoop2 ctx cIdx cf pc rest ⟨st.ps, st.found, st.trace ++ [cIdx]⟩
      rw [if_neg (by simp [hf])]
  | none => rfl

theorem jLoop1_congr (ctx ctx' : Ctx)
    (hp1 : ∀ pc pa, (pairEval1 ctx pc pa == some true) = (pairEval1 ctx' pc pa == some true))
    (cf pc : Feature) (candParts : List Feature) :
    ∀ st, truthy st.ms = false →
      jLoop1 ctx cf pc candParts st = jLoop1 ctx' cf pc candParts st := by
  induction candParts with
  | nil => intro st _; rfl
  | cons pa rest ih =>
    intro st h
    by_cases hhit : pairEval1 ctx pc pa = some true
    · have hhit' : pairEval1 ctx' pc pa = some true := by
        have hb : (pairEval1 ctx' pc pa == some true) = true := by
          rw [← hp1 pc pa, hhit]; simp
        exact eq_of_beq hb
      rw [jLoop1_cons_hit ctx cf pc pa rest st hhit,
        jLoop1_cons_hit ctx' cf pc pa rest st hhit']
    · have hhit' : ¬ pairEval1 ctx' pc pa = some true := by
        intro hc
        apply hhit
        have hb : (pairEval1 ctx pc pa == some true) = true := by
          rw [hp1 pc pa, hc]; simp
        exact eq_of_beq hb
      rw [jLoop1_cons_nohit ctx cf pc pa rest st hhit h,
        jLoop1_cons_nohit ctx' cf pc pa rest st hhit' h]
      exact ih st h

theorem iLoop1_congr (ctx ctx' : Ctx)
    (hp1 : ∀ pc pa, (pairEval1 ctx pc pa == some true) = (pairEval1 ctx' pc pa == some true))
    (cf : Feature) (childParts candParts : List Feature) :
    ∀ st, truthy st.ms = false →
      iLoop1 ctx cf childParts candParts st = iLoop1 ctx' cf childParts candParts st := by
  induction childParts with
  | nil => intro st _; rfl
  | cons pc rest ih =>
    intro st h
    simp only [iLoop1]
    rw [← jLoop1_congr ctx ctx' hp1 cf pc candParts st h]
    by_cases hms : truthy (jLoop1 ctx cf pc candParts st).ms = true
    · rw [if_pos hms, if_pos hms]
    · rw [if_neg hms, if_neg hms]
      exact ih _ (bool_eq_false hms)

theorem candLoop1_congr (ctx ctx' : Ctx)
    (hp1 : ∀ pc pa, (pairEval1 ctx pc pa == some true) = (pairEval1 ctx' pc pa == some true))
    (h1 : ctx.adm1Features = ctx'.adm1Features)
    (childParts : List Feature) (cands : List IndexEntry) :
    ∀ st, truthy st.ms = false →
      candLoop1 ctx childParts cands st = candLoop1 ctx' childParts cands st := by
  induction cands with
  | nil => intro st _; rfl
  | cons e rest ih =>
    intro st h
    simp only [candLoop1, ← h1]
    cases hof : ctx.adm1Features.getD e.idx none with
    | none =>
      simp only [hof]
      exact ih st h
    | some cf =>
      simp only [hof]
      cases hpp : cf.props with
      | none =>
        simp only [hpp]
        exact ih st h
      | some p =>
        simp only [hpp]
        rw [← iLoop1_congr ctx ctx' hp1 cf childParts (getPolygons cf) st h]
        by_cases hms : truthy (iLoop1 ctx cf childParts (getPolygons cf) st).ms = true
        · rw [if_pos hms, if_pos hms]
        · rw [if_neg hms, if_neg hms]
          exact ih _ (bool_eq_false hms)

theorem jLoop2_congr (ctx ctx' : Ctx)
    (hp2 : ∀ pc pa, (pairEval2 ctx pc pa == some true) = (pairEval2 ctx' pc pa == some true))
    (cIdx : Nat) (cf pc : Feature) (candParts : List Feature) :
    ∀ st, st.found = false →
      jLoop2 ctx cIdx cf pc candParts st = jLoop2 ctx' cIdx cf pc candParts st := by
  induction candParts with
  | nil => intro st _; rfl
  | cons pa rest ih =>
    intro st h
    by_cases hhit : pairEval2 ctx pc pa = some true
    · have hhit' : pairEval2 ctx' pc pa = some true := by
        have hb : (pairEval2 ctx' pc pa == some true) = true := by
          rw [← hp2 pc pa, hhit]; simp
        exact eq_of_beq hb
      rw [jLoop2_cons_hit ctx cIdx cf pc pa rest st hhit h,
        jLoop2_cons_hit ctx' cIdx cf pc pa rest st hhit' h]
    · have hhit' : ¬ pairEval2 ctx' pc pa = some true := by
        intro hc
        apply hhit
        have hb : (pairEval2 ctx pc pa == some true) = true := by
          rw [hp2 pc pa, hc]; simp
        exact eq_of_beq hb
      rw [jLoop2_cons_nohit ctx cIdx cf pc pa rest st hhit h,
        jLoop2_cons_nohit ctx' cIdx cf pc pa rest st hhit' h]
      exact ih _ (by simp [h])

theorem iLoop2_congr (ctx ctx' : Ctx)
    (hp2 : ∀ pc pa, (pairEval2 ctx pc pa == some true) = (pairEval2 ctx' pc pa == some true))
    (cIdx : Nat) (cf : Feature) (childParts candParts : List Feature) :
    ∀ st, st.found = false →
      iLoop2 ctx cIdx cf childParts candParts st = iLoop2 ctx' cIdx cf childParts candParts st := by
  induction childParts with
  | nil => intro st _; rfl
  | cons pc rest ih =>
    intro st h
    simp only [iLoop2]
    rw [← jLoop2_congr ctx ctx' hp2 cIdx cf pc candParts st h]
    by_cases hfd : (jLoop2 ctx cIdx cf pc candParts st).found = true
    · rw [if_pos hfd, if_pos hfd]
    · rw [if_neg hfd, if_neg hfd]
      exact ih _ (bool_eq_false hfd)

theorem candLoop2_congr (ctx ctx' : Ctx)
    (hp2 : ∀ pc pa, (pairEval2 ctx pc pa == some true) = (pairEval2 ctx' pc pa == some true))
    (childParts : List Feature) (cands : List (Nat × Feature)) :
    ∀ st, st.found = false →
      candLoop2 ctx childParts cands st = candLoop2 ctx' childParts cands st := by
  induction cands with
  | nil => intro st _; rfl
  | cons q rest ih =>
    intro st h
    obtain ⟨j, cf⟩ := q
    simp only [candLoop2]
    cases hpp : cf.props with
    | none =>
      simp only [hpp]
      exact ih st h
    | some p =>
      simp only [hpp]
      rw [← iLoop2_congr ctx ctx' hp2 j cf childParts (getPolygons cf) st h]
      by_cases hfd : (iLoop2 ctx j cf childParts (getPolygons cf) st).found = true
      · rw [if_pos hfd, if_pos hfd]
      · rw [if_neg hfd, if_neg hfd]
        exact ih _ (bool_eq_false hfd)

end GeoLink

namespace GeoLink

theorem bboxF_congr (ctx ctx' : Ctx) (hbb : ctx.bboxG = ctx'.bboxG) (fe : Feature) :
    bboxF ctx fe = bboxF ctx' fe := by
  cases hge : fe.geom <;> simp [bboxF, hge, hbb]

theorem adm1Entries_congr (ctx ctx' : Ctx) (hbb : ctx.bboxG = ctx'.bboxG)
    (h1 : ctx.adm1Features = ctx'.adm1Features) :
    adm1Entries ctx = adm1Entries ctx' := by
  unfold adm1Entries
  rw [← h1]
  congr 1
  funext p
  obtain ⟨i, of⟩ := p
  cases of with
  | none => rfl
  | some f =>
    dsimp only
    rw [bboxF_congr ctx ctx' hbb f]

theorem treeSearch_congr (ctx ctx' : Ctx) (hbb : ctx.bboxG = ctx'.bboxG)
    (h1 : ctx.adm1Features = ctx'.adm1Features) (q : Box) :
    treeSearch ctx q = treeSearch ctx' q := by
  unfold treeSearch
  rw [adm1Entries_congr ctx ctx' hbb h1]

theorem adm2Group_congr (ctx ctx' : Ctx) (h2 : ctx.adm2Features = ctx'.adm2Features)
    (key : String) : adm2Group ctx key = adm2Group ctx' key := by
  unfold adm2Group
  rw [h2]

theorem processFeature_truthy_jnum (ctx : Ctx) (f : Feature) (p0 : Props) (g0 : Geometry)
    (bx : Box) (n : Int)
    (hp : f.props = some p0) (hg : f.geom = some g0) (hbb : bboxF ctx f = some bx)
    (hlen : ¬ (getPolygons f).length = 0)
    (hmv : (candLoop1 ctx (getPolygons f) (treeSearch ctx bx) ⟨JVal.jnull, p0⟩).ms = JVal.jnum n)
    (hn : ¬ n = 0) :
    processFeature ctx f
      = ⟨some (candLoop1 ctx (getPolygons f) (treeSearch ctx bx) ⟨JVal.jnull, p0⟩).ps,
         JVal.jnum n, false, 0, []⟩ := by
  simp [processFeature, hp, hg, hbb, hlen, hmv, truthy, hn]

theorem processFeature_truthy_jbool (ctx : Ctx) (f : Feature) (p0 : Props) (g0 : Geometry)
    (bx : Box)
    (hp : f.props = some p0) (hg : f.geom = some g0) (hbb : bboxF ctx f = some bx)
    (hlen : ¬ (getPolygons f).length = 0)
    (hmv : (candLoop1 ctx (getPolygons f) (treeSearch ctx bx) ⟨JVal.jnull, p0⟩).ms
      = JVal.jbool true) :
    processFeature ctx f
      = ⟨some (candLoop1 ctx (getPolygons f) (treeSearch ctx bx) ⟨JVal.jnull, p0⟩).ps,
         JVal.jbool true, false, 0, []⟩ := by
  simp [processFeature, hp, hg, hbb, hlen, hmv, truthy]

end GeoLink

namespace GeoLink

theorem processFeature_congr (ctx ctx' : Ctx)
    (hbb : ctx.bboxG = ctx'.bboxG)
    (h1 : ctx.adm1Features = ctx'.adm1Features)
    (h2 : ctx.adm2Features = ctx'.adm2Features)
    (hp1 : ∀ pc pa, (pairEval1 ctx pc pa == some true) = (pairEval1 ctx' pc pa == some true))
    (hp2 : ∀ pc pa, (pairEval2 ctx pc pa == some true) = (pairEval2 ctx' pc pa == some true))
    (f : Feature) :
    processFeature ctx f = processFeature ctx' f := by
  cases hpp : f.props with
  | none => rw [processFeature_props_none ctx f hpp, processFeature_props_none ctx' f hpp]
  | some p0 =>
    cases hgg : f.geom with
    | none => rw [processFeature_geom_none ctx f hgg, processFeature_geom_none ctx' f hgg]
    | some g0 =>
      cases hbx : bboxF ctx f with
      | none =>
        have hbx' : bboxF ctx' f = none := by rw [← bboxF_congr ctx ctx' hbb f]; exact hbx
        rw [processFeature_bbox_none ctx f p0 g0 hpp hgg hbx,
          processFeature_bbox_none ctx' f p0 g0 hpp hgg hbx']
      | some bx =>
        have hbx' : bboxF ctx' f = some bx := by rw [← bboxF_congr ctx ctx' hbb f]; exact hbx
        by_cases hlen : (getPolygons f).length = 0
        · rw [processFeature_parts_nil ctx f p0 g0 bx hpp hgg hbx hlen,
            processFeature_parts_nil ctx' f p0 g0 bx hpp hgg hbx' hlen]
        · have hst1 : candLoop1 ctx (getPolygons f) (treeSearch ctx bx) ⟨JVal.jnull, p0⟩
              = candLoop1 ctx' (getPolygons f) (treeSearch ctx' bx) ⟨JVal.jnull, p0⟩ := by
            rw [← treeSearch_congr ctx ctx' hbb h1 bx]
            exact candLoop1_congr ctx ctx' hp1 h1 (getPolygons f)
              (treeSearch ctx bx) ⟨JVal.jnull, p0⟩ rfl
          by_cases hms : truthy (candLoop1 ctx (getPolygons f) (treeSearch ctx bx)
              ⟨JVal.jnull, p0⟩).ms = true
          · cases hmv : (candLoop1 ctx (getPolygons f) (treeSearch ctx bx)
                ⟨JVal.jnull, p0⟩).ms with
            | jnull => rw [hmv] at hms; exact absurd hms (by simp [truthy])
            | jstr sv =>
              by_cases hse : sv = ""
              · rw [hmv, hse] at hms
                exact absurd hms (by simp [truthy])
              · have hmv' : (candLoop1 ctx' (getPolygons f) (treeSearch ctx' bx)
                    ⟨JVal.jnull, p0⟩).ms = JVal.jstr sv := by rw [← hst1]; exact hmv
                have hgr := adm2Group_congr ctx ctx' h2 (normKey sv)
                have hst2 : candLoop2 ctx (getPolygons f) (adm2Group ctx (normKey sv))
                      ⟨(candLoop1 ctx (getPolygons f) (treeSearch ctx bx) ⟨JVal.jnull, p0⟩).ps,
                       false, []⟩
                    = candLoop2 ctx' (getPolygons f) (adm2Group ctx' (normKey sv))
                      ⟨(candLoop1 ctx' (getPolygons f) (treeSearch ctx' bx) ⟨JVal.jnull, p0⟩).ps,
                       false, []⟩ := by
                  rw [← hgr, ← hst1]
                  exact candLoop2_congr ctx ctx' hp2 (getPolygons f)
                    (adm2Group ctx (normKey sv)) _ rfl
                rw [processFeature_jstr ctx f p0 g0 bx sv hpp hgg hbx hlen hmv hse,
                  processFeature_jstr ctx' f p0 g0 bx sv hpp hgg hbx' hlen hmv' hse,
                  ← hst2]
            | jnum n =>
              have hn : ¬ n = 0 := by
                intro hzero
                rw [hmv, hzero] at hms
                exact absurd hms (by simp [truthy])
              have hmv' : (candLoop1 ctx' (getPolygons f) (treeSearch ctx' bx)
                  ⟨JVal.jnull, p0⟩).ms = JVal.jnum n := by rw [← hst1]; exact hmv
              rw [processFeature_truthy_jnum ctx f p0 g0 bx n hpp hgg hbx hlen hmv hn,
                processFeature_truthy_jnum ctx' f p0 g0 bx n hpp hgg hbx' hlen hmv' hn,
                ← hst1]
            | jbool b =>
              have hb : b = true := by
                cases b with
                | true => rfl
                | false =>
                  rw [hmv] at hms
                  exact absurd hms (by simp [truthy])
              subst hb
              have hmv' : (candLoop1 ctx' (getPolygons f) (treeSearch ctx' bx)
                  ⟨JVal.jnull, p0⟩).ms = JVal.jbool true := by rw [← hst1]; exact hmv
              rw [processFeature_truthy_jbool ctx f p0 g0 bx hpp hgg hbx hlen hmv,
                processFeature_truthy_jbool ctx' f p0 g0 bx hpp hgg hbx' hlen hmv',
                ← hst1]
          · have hms' : truthy (candLoop1 ctx' (getPolygons f) (treeSearch ctx' bx)
                ⟨JVal.jnull, p0⟩).ms = false := by
              rw [← hst1]; exact bool_eq_false hms
            rw [processFeature_no_truthy ctx f p0 g0 bx hpp hgg hbx hlen (bool_eq_false hms),
              processFeature_no_truthy ctx' f p0 g0 bx hpp hgg hbx' hlen hms',
              ← hst1]

theorem runAux_congr (ctx ctx' : Ctx)
    (hbb : ctx.bboxG = ctx'.bboxG)
    (h1 : ctx.adm1Features = ctx'.adm1Features)
    (h2 : ctx.adm2Features = ctx'.adm2Features)
    (hp1 : ∀ pc pa, (pairEval1 ctx pc pa == some true) = (pairEval1 ctx' pc pa == some true))
    (hp2 : ∀ pc pa, (pairEval2 ctx pc pa == some true) = (pairEval2 ctx' pc pa == some true))
    (rest : List (Option Feature)) :
    ∀ n g, runAux ctx n g rest = runAux ctx' n g rest := by
  induction rest with
  | nil => intro n g; rfl
  | cons of tl ih =>
    intro n g
    match of with
    | none => simp only [runAux]; exact ih n (g + 1)
    | some f =>
      by_cases hs : (f.props.isSome && f.geom.isSome) = true
      · simp only [runAux, if_pos hs]
        rw [ih n (g + 1)]
        have hemit : emitOne ctx n g f = emitOne ctx' n g f := by
          unfold emitOne
          rw [processFeature_congr ctx ctx' hbb h1 h2 hp1 hp2 f,
            bboxF_congr ctx ctx' hbb f]
        rw [hemit]
      · simp only [runAux, if_neg hs]
        exact ih n (g + 1)

/-- C8: a geometry-predicate error for a pair is exactly a non-matching
pair — if two contexts share the datasets and the bbox function and agree
on WHICH part pairs are truthy (errors and false results both count as
not-truthy), every child resolves identically and the whole run emits
identical records; moreover an erroring pair steps to the next candidate
part with only the trace extended, at either matching level. -/
theorem claim_C8_theorem (ctx ctx' : Ctx)
    (hbb : ctx.bboxG = ctx'.bboxG)
    (h1 : ctx.adm1Features = ctx'.adm1Features)
    (h2 : ctx.adm2Features = ctx'.adm2Features)
    (hp1 : ∀ pc pa, (pairEval1 ctx pc pa == some true) = (pairEval1 ctx' pc pa == some true))
    (hp2 : ∀ pc pa, (pairEval2 ctx pc pa == some true) = (pairEval2 ctx' pc pa == some true)) :
    (∀ f, processFeature ctx f = processFeature ctx' f) ∧
    (∀ children, runPipeline ctx children = runPipeline ctx' children) ∧
    (∀ cf pc pa rest st, pairEval1 ctx pc pa = none → truthy st.ms = false →
      jLoop1 ctx cf pc (pa :: rest) st = jLoop1 ctx cf pc rest st) ∧
    (∀ cIdx cf pc pa rest st, pairEval2 ctx pc pa = none → st.found = false →
      jLoop2 ctx cIdx cf pc (pa :: rest) st
        = jLoop2 ctx cIdx cf pc rest ⟨st.ps, st.found, st.trace ++ [cIdx]⟩) := by
  refine ⟨processFeature_congr ctx ctx' hbb h1 h2 hp1 hp2, ?_, ?_, ?_⟩
  · intro children
    unfold runPipeline
    exact runAux_congr ctx ctx' hbb h1 h2 hp1 hp2 children children.length 0
  · intro cf pc pa rest st herr hms
    exact jLoop1_cons_nohit ctx cf pc pa rest st (by rw [herr]; simp) hms
  · intro cIdx cf pc pa rest st herr hf
    exact jLoop2_cons_nohit ctx cIdx cf pc pa rest st (by rw [herr]; simp) hf

/-- Witness of the C8 theorem: the all-erroring context resolves the
concrete child exactly as the all-false context does. -/
theorem claim_C8_witness :
    processFeature ctxErr fChild = processFeature ctxNoMatch fChild ∧
    runPipeline ctxErr [some fChild] = runPipeline ctxNoMatch [some fChild] :=
  ⟨(claim_C8_theorem ctxErr ctxNoMatch rfl rfl rfl
      (fun pc pa => by
        cases hpc : pc.geom <;> cases hpa : pa.geom <;>
          simp [pairEval1, predW, hpc, hpa, ctxErr, ctxNoMatch])
      (fun pc pa => by
        cases hpc : pc.geom <;> cases hpa : pa.geom <;>
          simp [pairEval2, predW, hpc, hpa, ctxErr, ctxNoMatch])).1 fChild,
   (claim_C8_theorem ctxErr ctxNoMatch rfl rfl rfl
      (fun pc pa => by
        cases hpc : pc.geom <;> cases hpa : pa.geom <;>
          simp [pairEval1, predW, hpc, hpa, ctxErr, ctxNoMatch])
      (fun pc pa => by
        cases hpc : pc.geom <;> cases hpa : pa.geom <;>
          simp [pairEval2, predW, hpc, hpa, ctxErr, ctxNoMatch])).2.1 [some fChild]⟩

end GeoLink
